import Mathlib

/-!
Verification of the content-addressed graph persistence layer of
`histo-graph` (crate `histo_graph_file`, file `src/file/src/file_storage.rs`).

The byte level is modelled shallowly: a byte is a `Nat` (values `< 256` in
every byte string the code produces), a byte string is a `List Nat`.  The
SHA-256 digest used by the source (`ring::digest::SHA256`) is implemented
executably below; `bincode`'s default configuration serializes a `u64` as 8
little-endian bytes, a `[u8; 32]` as its 32 raw bytes and a `Vec<T>` as a
64-bit little-endian length followed by the elements, which is what the
codec definitions implement.
-/

set_option maxRecDepth 10000

namespace HistoGraph

abbrev Bytes := List Nat

/-! ### SHA-256 (the digest `ring::digest::SHA256` computes) -/

def w32 (n : Nat) : Nat := n % 4294967296

def rotr (x n : Nat) : Nat := w32 ((x >>> n) ||| (x <<< (32 - n)))

def bsig0 (x : Nat) : Nat := (rotr x 2) ^^^ (rotr x 13) ^^^ (rotr x 22)

def bsig1 (x : Nat) : Nat := (rotr x 6) ^^^ (rotr x 11) ^^^ (rotr x 25)

def ssig0 (x : Nat) : Nat := (rotr x 7) ^^^ (rotr x 18) ^^^ (x >>> 3)

def ssig1 (x : Nat) : Nat := (rotr x 17) ^^^ (rotr x 19) ^^^ (x >>> 10)

def chf (x y z : Nat) : Nat := (x &&& y) ^^^ ((x ^^^ 4294967295) &&& z)

def maj (x y z : Nat) : Nat := (x &&& y) ^^^ (x &&& z) ^^^ (y &&& z)

/-- The 64 SHA-256 round constants, written in decimal. -/
def shaK : List Nat :=
  [1116352408, 1899447441, 3049323471, 3921009573, 961987163, 1508970993,
   2453635748, 2870763221, 3624381080, 310598401, 607225278, 1426881987,
   1925078388, 2162078206, 2614888103, 3248222580, 3835390401, 4022224774,
   264347078, 604807628, 770255983, 1249150122, 1555081692, 1996064986,
   2554220882, 2821834349, 2952996808, 3210313671, 3336571891, 3584528711,
   113926993, 338241895, 666307205, 773529912, 1294757372, 1396182291,
   1695183700, 1986661051, 2177026350, 2456956037, 2730485921, 2820302411,
   3259730800, 3345764771, 3516065817, 3600352804, 4094571909, 275423344,
   430227734, 506948616, 659060556, 883997877, 958139571, 1322822218,
   1537002063, 1747873779, 1955562222, 2024104815, 2227730452, 2361852424,
   2428436474, 2756734187, 3204031479, 3329325298]

/-- 64-bit big-endian byte representation (used for the length field of the
SHA-256 padding). -/
def beBytes8 (n : Nat) : Bytes :=
  [(n >>> 56) % 256, (n >>> 48) % 256, (n >>> 40) % 256, (n >>> 32) % 256,
   (n >>> 24) % 256, (n >>> 16) % 256, (n >>> 8) % 256, n % 256]

/-- SHA-256 padding: append `0x80`, zeros up to 56 mod 64, then the bit
length as 8 big-endian bytes. -/
def shaPad (msg : Bytes) : Bytes :=
  let l := msg.length
  msg ++ [128] ++ List.replicate ((64 - ((l + 9) % 64)) % 64) 0 ++ beBytes8 (8 * l)

def chunks64 (l : Bytes) : List Bytes :=
  (List.range (l.length / 64)).map (fun i => (l.drop (64 * i)).take 64)

/-- Big-endian 32-bit words from a byte string. -/
def bytesToWords : Bytes → List Nat
  | b0 :: b1 :: b2 :: b3 :: rest =>
      (((b0 * 256 + b1) * 256 + b2) * 256 + b3) :: bytesToWords rest
  | _ => []

/-- Extend the 16 message-schedule words by `n` further words. -/
def extendWords (ws : List Nat) : Nat → List Nat
  | 0 => ws
  | n + 1 =>
      let prev := extendWords ws n
      let i := prev.length
      prev ++ [w32 (ssig1 (prev.getD (i - 2) 0) + prev.getD (i - 7) 0 +
                    ssig0 (prev.getD (i - 15) 0) + prev.getD (i - 16) 0)]

structure SHAState where
  a : Nat
  b : Nat
  c : Nat
  d : Nat
  e : Nat
  f : Nat
  g : Nat
  h : Nat
deriving DecidableEq, Repr

/-- The eight SHA-256 initial hash words, written in decimal. -/
def shaInit : SHAState :=
  ⟨1779033703, 3144134277, 1013904242, 2773480762,
   1359893119, 2600822924, 528734635, 1541459225⟩

def shaRound (s : SHAState) (kw : Nat × Nat) : SHAState :=
  let t1 := w32 (s.h + bsig1 s.e + chf s.e s.f s.g + kw.1 + kw.2)
  let t2 := w32 (bsig0 s.a + maj s.a s.b s.c)
  ⟨w32 (t1 + t2), s.a, s.b, s.c, w32 (s.d + t1), s.e, s.f, s.g⟩

def processBlock (st : SHAState) (block : Bytes) : SHAState :=
  let ws := extendWords (bytesToWords block) 48
  let s := (shaK.zip ws).foldl shaRound st
  ⟨w32 (st.a + s.a), w32 (st.b + s.b), w32 (st.c + s.c), w32 (st.d + s.d),
   w32 (st.e + s.e), w32 (st.f + s.f), w32 (st.g + s.g), w32 (st.h + s.h)⟩

/-- Big-endian byte representation of one 32-bit word. -/
def wordBytes (w : Nat) : Bytes :=
  [(w >>> 24) % 256, (w >>> 16) % 256, (w >>> 8) % 256, w % 256]

/-- The 32 digest bytes of SHA-256 on a byte string. -/
def sha256 (msg : Bytes) : Bytes :=
  let s := (chunks64 (shaPad msg)).foldl processBlock shaInit
  wordBytes s.a ++ wordBytes s.b ++ wordBytes s.c ++ wordBytes s.d ++
  wordBytes s.e ++ wordBytes s.f ++ wordBytes s.g ++ wordBytes s.h

/-! ### The `Hash` type (source: `struct Hash([u8; 32])` and its impls) -/

/-- `Hash`: a 32-byte SHA-256 digest (source: `pub struct Hash([u8; 32])`). -/
structure Hash where
  bytes : Bytes
deriving DecidableEq, Repr

/-- `impl<T> From<T> for Hash`: hash the content bytes with SHA-256. -/
def hashOf (content : Bytes) : Hash := ⟨sha256 content⟩

def hexDigit (n : Nat) : Char :=
  if n < 10 then Char.ofNat (48 + n) else Char.ofNat (87 + n)

/-- `Hash::to_string`: canonical lowercase-hex form (`HEXLOWER.encode`). -/
def Hash.to_string (h : Hash) : String :=
  String.mk (h.bytes.foldr (fun b acc => hexDigit (b / 16) :: hexDigit (b % 16) :: acc) [])

/-! ### Core data model

`VertexId`, `Edge` and `DirectedGraph` live in the crate `histo_graph_core`,
which is referenced but not among the sources; they are modelled from the
spec (§3, §4.5, §6, §9). -/

/-- Modelled from the spec: `VertexId` of `histo_graph_core` (absent from the
sources) — "a single unsigned 64-bit value" (§3). -/
abbrev VertexId := Fin 18446744073709551616

/-- Modelled from the spec: `Edge` of `histo_graph_core` (absent from the
sources) — "an ordered pair `(from, to)` of `VertexId`, directed" (§3);
the source accesses the components as `edge.0` and `edge.1`. -/
abbrev Edge := VertexId × VertexId

/-- Modelled from the spec: `DirectedGraph` of `histo_graph_core` (absent
from the sources) — a graph with an iterable vertex collection and an
iterable edge collection, compared as a set of vertices and a set of edges
(§3, §6, §8).  Per §4.5/§9 edge insertion does not touch the vertex
collection (a graph "may contain edges referencing vertex ids absent from
its own vertex collection"). -/
structure DirectedGraph where
  vertices : Finset VertexId
  edges : Finset Edge
deriving DecidableEq

def DirectedGraph.new : DirectedGraph := ⟨∅, ∅⟩

def DirectedGraph.add_vertex (g : DirectedGraph) (v : VertexId) : DirectedGraph :=
  { g with vertices := insert v g.vertices }

def DirectedGraph.add_edge (g : DirectedGraph) (e : Edge) : DirectedGraph :=
  { g with edges := insert e g.edges }

/-- Modelled from the spec: the error type of `src/file/src/error.rs`
(referenced as `crate::error::{Error, Result}` but absent from the
sources) — the §7 taxonomy: `IoFailure`, `MalformedObject`,
`ObjectNotFound`, `SnapshotNotFound`. -/
inductive Error where
  | ioFailure
  | malformedObject
  | objectNotFound
  | snapshotNotFound
deriving DecidableEq, Repr

instance exceptDecidableEq {α β : Type} [DecidableEq α] [DecidableEq β] :
    DecidableEq (Except α β) := fun a b =>
  match a, b with
  | .error x, .error y =>
      if h : x = y then .isTrue (by rw [h])
      else .isFalse (by intro hc; cases hc; exact h rfl)
  | .error _, .ok _ => .isFalse (by intro hc; cases hc)
  | .ok _, .error _ => .isFalse (by intro hc; cases hc)
  | .ok x, .ok y =>
      if h : x = y then .isTrue (by rw [h])
      else .isFalse (by intro hc; cases hc; exact h rfl)

/-! ### Object codec (`bincode` default configuration) -/

/-- `bincode::serialize` of a `u64`: 8 little-endian bytes. -/
def encode_u64 (v : Nat) : Bytes :=
  [v % 256, v / 256 % 256, v / 65536 % 256, v / 16777216 % 256,
   v / 4294967296 % 256, v / 1099511627776 % 256,
   v / 281474976710656 % 256, v / 72057594037927936 % 256]

/-- A stored file: content bytes plus the content's hash (source: `struct File`). -/
structure File where
  content : Bytes
  hash : Hash
deriving DecidableEq

/-- A `HashEdge` represents an edge by the hashes of the vertices it is
connected to (source: `struct HashEdge { from: Hash, to: Hash }`). -/
structure HashEdge where
  from_ : Hash
  to_ : Hash
deriving DecidableEq

/-- The root of a stored graph (source: `struct GraphHash`). -/
structure GraphHash where
  vertex_vec_hash : Hash
  edge_vec_hash : Hash
deriving DecidableEq

/-- `bincode::serialize` of a `HashEdge`: the two 32-byte arrays in order. -/
def encode_hash_edge (he : HashEdge) : Bytes := he.from_.bytes ++ he.to_.bytes

/-- `bincode::serialize` of a `Vec<Hash>`: the length as a 64-bit
little-endian integer followed by the 32-byte arrays in order. -/
def encode_hash_vec (hv : List Hash) : Bytes :=
  encode_u64 hv.length ++ (hv.map Hash.bytes).flatten

/-- `bincode::serialize` of a `GraphHash`: the two 32-byte arrays in order. -/
def encode_graph_hash (gh : GraphHash) : Bytes :=
  gh.vertex_vec_hash.bytes ++ gh.edge_vec_hash.bytes

/-- Source `vertex_to_file`: serialize the vertex id, hash the content. -/
def vertex_to_file (v : VertexId) : File :=
  let content := encode_u64 v.val
  { content := content, hash := hashOf content }

/-- Source `edge_to_file`: re-derive the endpoint hashes by pure encoding
(`vertex_to_file`), form a `HashEdge`, serialize and hash it. -/
def edge_to_file (e : Edge) : File :=
  let v_hash_0 := (vertex_to_file e.1).hash
  let v_hash_1 := (vertex_to_file e.2).hash
  let hash_edge : HashEdge := { from_ := v_hash_0, to_ := v_hash_1 }
  let content := encode_hash_edge hash_edge
  { content := content, hash := hashOf content }

/-- Source `hash_vec_to_file`: serialize the hash vector, hash the content. -/
def hash_vec_to_file (hash_vec : List Hash) : File :=
  let content := encode_hash_vec hash_vec
  { content := content, hash := hashOf content }

/-- Source `file_to_vertex`: `bincode::deserialize` of a `u64`.  Exactly 8
bytes (each a byte value) decode; anything else is a malformed object. -/
def file_to_vertex (f : File) : Except Error VertexId :=
  match f.content with
  | [b0, b1, b2, b3, b4, b5, b6, b7] =>
      if h : b0 < 256 ∧ b1 < 256 ∧ b2 < 256 ∧ b3 < 256 ∧
             b4 < 256 ∧ b5 < 256 ∧ b6 < 256 ∧ b7 < 256 then
        .ok ⟨b0 + 256 * b1 + 65536 * b2 + 16777216 * b3 + 4294967296 * b4 +
             1099511627776 * b5 + 281474976710656 * b6 + 72057594037927936 * b7,
             by omega⟩
      else .error .malformedObject
  | _ => .error .malformedObject

/-- Source `file_to_hash_edge`: `bincode::deserialize` of a `HashEdge`
(two 32-byte arrays). -/
def file_to_hash_edge (f : File) : Except Error HashEdge :=
  if f.content.length = 64 then
    .ok { from_ := ⟨f.content.take 32⟩, to_ := ⟨f.content.drop 32⟩ }
  else .error .malformedObject

/-- Split a byte string into consecutive 32-byte hashes. -/
def split32 (b : Bytes) : List Hash :=
  (List.range (b.length / 32)).map (fun i => ⟨(b.drop (32 * i)).take 32⟩)

/-- Decode 8 little-endian bytes into a `u64` value. -/
def decode_u64 (b : Bytes) : Option Nat :=
  match b with
  | [b0, b1, b2, b3, b4, b5, b6, b7] =>
      if b0 < 256 ∧ b1 < 256 ∧ b2 < 256 ∧ b3 < 256 ∧
         b4 < 256 ∧ b5 < 256 ∧ b6 < 256 ∧ b7 < 256 then
        some (b0 + 256 * b1 + 65536 * b2 + 16777216 * b3 + 4294967296 * b4 +
              1099511627776 * b5 + 281474976710656 * b6 + 72057594037927936 * b7)
      else none
  | _ => none

/-- Source `file_to_hash_vec`: `bincode::deserialize` of a `Vec<Hash>`:
a 64-bit little-endian length followed by that many 32-byte arrays. -/
def file_to_hash_vec (f : File) : Except Error (List Hash) :=
  match decode_u64 (f.content.take 8) with
  | none => .error .malformedObject
  | some n =>
      let rest := f.content.drop 8
      if rest.length = 32 * n then .ok (split32 rest) else .error .malformedObject

/-- `bincode::deserialize` of a `GraphHash` (load side of `load_graph`). -/
def decode_graph_hash (b : Bytes) : Except Error GraphHash :=
  if b.length = 64 then
    .ok { vertex_vec_hash := ⟨b.take 32⟩, edge_vec_hash := ⟨b.drop 32⟩ }
  else .error .malformedObject

/-! ### The content store

The on-disk layout (§6) is a base directory with sub-directories `vertex/`,
`edge/`, `vertexvec/`, `edgevec/` holding one file per object keyed by the
hash's hex string, and `graph/` holding one file per snapshot name.  The
store is modelled as one association list per partition (newest entry
first, so a re-written key is observed with its latest content, as on a
file system); hash keys are kept as raw digest bytes, which the hex key
string represents injectively. -/

structure Store where
  vertexPart : List (Bytes × Bytes)
  edgePart : List (Bytes × Bytes)
  vertexvecPart : List (Bytes × Bytes)
  edgevecPart : List (Bytes × Bytes)
  graphPart : List (String × Bytes)
deriving DecidableEq

def Store.empty : Store := ⟨[], [], [], [], []⟩

inductive Partition where
  | vertex
  | edge
  | vertexvec
  | edgevec
deriving DecidableEq

def Store.part (s : Store) : Partition → List (Bytes × Bytes)
  | .vertex => s.vertexPart
  | .edge => s.edgePart
  | .vertexvec => s.vertexvecPart
  | .edgevec => s.edgevecPart

def Store.putPart (s : Store) (p : Partition) (entry : Bytes × Bytes) : Store :=
  match p with
  | .vertex => { s with vertexPart := entry :: s.vertexPart }
  | .edge => { s with edgePart := entry :: s.edgePart }
  | .vertexvec => { s with vertexvecPart := entry :: s.vertexvecPart }
  | .edgevec => { s with edgevecPart := entry :: s.edgevecPart }

def findIn (l : List (Bytes × Bytes)) (k : Bytes) : Option Bytes :=
  match l with
  | [] => none
  | (k', v) :: rest => if k = k' then some v else findIn rest k

def findName (l : List (String × Bytes)) (k : String) : Option Bytes :=
  match l with
  | [] => none
  | (k', v) :: rest => if k = k' then some v else findName rest k

/-! ### Graph writer

Write-side I/O failures (`IoFailure`, §7: permission, disk full, …) are
modelled by an oracle: a list of booleans consumed one per file write, a
`true` entry making that write fail.  The source writer iterates
`graph.vertices()` / `graph.edges()` and collects them into vectors before
any I/O; the model takes those iteration sequences as input lists.  The
source's parallel `join_all` fan-out resolves to the first error and to the
in-input-order collected hash vector on success; the model sequences the
writes in input order. -/

structure WState where
  store : Store
  oracle : List Bool
deriving DecidableEq

/-- Source `write_file_in_dir`: write `file.content` under the file name
`file.hash.to_string()` in the given partition directory.  May fail with an
I/O error (per the oracle), leaving the store unchanged. -/
def write_file_in_dir (p : Partition) (f : File) (w : WState) :
    Except Error Unit × WState :=
  if w.oracle.headD false then
    (.error .ioFailure, ⟨w.store, w.oracle.tail⟩)
  else
    (.ok (), ⟨w.store.putPart p (f.hash.bytes, f.content), w.oracle.tail⟩)

/-- Source `write_all_vertices_to_files`: one file per vertex in the
`vertex/` partition; returns the hashes in input order. -/
def write_all_vertices_to_files (vs : List VertexId) (w : WState) :
    Except Error (List Hash) × WState :=
  match vs with
  | [] => (.ok [], w)
  | v :: rest =>
      let f := vertex_to_file v
      match write_file_in_dir .vertex f w with
      | (.error e, w') => (.error e, w')
      | (.ok _, w') =>
          match write_all_vertices_to_files rest w' with
          | (.error e, w'') => (.error e, w'')
          | (.ok hs, w'') => (.ok (f.hash :: hs), w'')

/-- Source `write_vertex_hash_vec_file`: the vertex manifest, one file in
the `vertexvec/` partition; returns its hash. -/
def write_vertex_hash_vec_file (hash_vec : List Hash) (w : WState) :
    Except Error Hash × WState :=
  let f := hash_vec_to_file hash_vec
  match write_file_in_dir .vertexvec f w with
  | (.error e, w') => (.error e, w')
  | (.ok _, w') => (.ok f.hash, w')

/-- Source `write_graph_vertices`: write every vertex, then the manifest of
their hashes; returns the manifest hash. -/
def write_graph_vertices (vs : List VertexId) (w : WState) :
    Except Error Hash × WState :=
  match write_all_vertices_to_files vs w with
  | (.error e, w') => (.error e, w')
  | (.ok hash_vec, w') => write_vertex_hash_vec_file hash_vec w'

/-- Source `write_all_edges_to_files`: one file per edge in the `edge/`
partition; returns the hashes in input order. -/
def write_all_edges_to_files (es : List Edge) (w : WState) :
    Except Error (List Hash) × WState :=
  match es with
  | [] => (.ok [], w)
  | e :: rest =>
      let f := edge_to_file e
      match write_file_in_dir .edge f w with
      | (.error err, w') => (.error err, w')
      | (.ok _, w') =>
          match write_all_edges_to_files rest w' with
          | (.error err, w'') => (.error err, w'')
          | (.ok hs, w'') => (.ok (f.hash :: hs), w'')

/-- Source `write_edge_hash_vec_file`: the edge manifest, one file in the
`edgevec/` partition; returns its hash. -/
def write_edge_hash_vec_file (hash_vec : List Hash) (w : WState) :
    Except Error Hash × WState :=
  let f := hash_vec_to_file hash_vec
  match write_file_in_dir .edgevec f w with
  | (.error e, w') => (.error e, w')
  | (.ok _, w') => (.ok f.hash, w')

/-- Source `write_graph_edges`: write every edge, then the manifest of
their hashes; returns the manifest hash. -/
def write_graph_edges (es : List Edge) (w : WState) :
    Except Error Hash × WState :=
  match write_all_edges_to_files es w with
  | (.error e, w') => (.error e, w')
  | (.ok hash_vec, w') => write_edge_hash_vec_file hash_vec w'

/-- Source `write_graph`: the vertex side joined with the edge side; on
success combines the two manifest hashes into a `GraphHash`. -/
def write_graph (vs : List VertexId) (es : List Edge) (w : WState) :
    Except Error GraphHash × WState :=
  match write_graph_vertices vs w with
  | (.error e, w') => (.error e, w')
  | (.ok vertex_vec_hash, w') =>
      match write_graph_edges es w' with
      | (.error e, w'') => (.error e, w'')
      | (.ok edge_vec_hash, w'') =>
          (.ok { vertex_vec_hash := vertex_vec_hash, edge_vec_hash := edge_vec_hash }, w'')

/-- Source `save_graph_as`: `write_graph`, then serialize the resulting
`GraphHash` and write it under `graph/<name>` (one further fallible write);
returns the written path (modelled by the name). -/
def save_graph_as (name : String) (vs : List VertexId) (es : List Edge)
    (w : WState) : Except Error String × WState :=
  match write_graph vs es w with
  | (.error e, w') => (.error e, w')
  | (.ok graph_hash, w') =>
      let content := encode_graph_hash graph_hash
      if w'.oracle.headD false then
        (.error .ioFailure, ⟨w'.store, w'.oracle.tail⟩)
      else
        (.ok name,
         ⟨{ w'.store with graphPart := (name, content) :: w'.store.graphPart },
          w'.oracle.tail⟩)

/-! ### Graph reader

Reads are pure functions of the store.  A key with no entry in its
partition is a missing object: the source's `tokio_fs::read` fails and the
error is converted into the spec's `ObjectNotFound` (§7; the conversion
lives in the absent `error.rs` and is modelled from the spec). -/

/-- Source `read_file_in_dir`: read the bytes stored under the hash key in
the given partition. -/
def read_file_in_dir (s : Store) (p : Partition) (hash : Hash) : Except Error File :=
  match findIn (s.part p) hash.bytes with
  | none => .error .objectNotFound
  | some content => .ok { content := content, hash := hash }

/-- Source `read_vertex_hash_vec`: fetch and decode the vertex manifest. -/
def read_vertex_hash_vec (s : Store) (hash : Hash) : Except Error (List Hash) :=
  match read_file_in_dir s .vertexvec hash with
  | .error e => .error e
  | .ok file => file_to_hash_vec file

/-- The per-hash body of `read_all_vertices_from_files` (and of the
endpoint resolution in `read_edge`): fetch a vertex object and decode it. -/
def read_vertex_object (s : Store) (hash : Hash) : Except Error VertexId :=
  match read_file_in_dir s .vertex hash with
  | .error e => .error e
  | .ok file => file_to_vertex file

/-- Source `read_all_vertices_from_files`: fetch and decode every vertex
object listed in the manifest, in manifest order; first error wins. -/
def read_all_vertices_from_files (s : Store) (hash_vec : List Hash) :
    Except Error (List VertexId) :=
  match hash_vec with
  | [] => .ok []
  | h :: rest =>
      match read_vertex_object s h with
      | .error e => .error e
      | .ok v =>
          match read_all_vertices_from_files s rest with
          | .error e => .error e
          | .ok vs => .ok (v :: vs)

/-- Source `read_graph_vertices`: read the manifest, read all vertices, add
them to the provided graph. -/
def read_graph_vertices (s : Store) (hash : Hash) (graph : DirectedGraph) :
    Except Error DirectedGraph :=
  match read_vertex_hash_vec s hash with
  | .error e => .error e
  | .ok hash_vec =>
      match read_all_vertices_from_files s hash_vec with
      | .error e => .error e
      | .ok vertices => .ok (vertices.foldl DirectedGraph.add_vertex graph)

/-- Source `read_hash_edge`: fetch and decode one edge object. -/
def read_hash_edge (s : Store) (hash : Hash) : Except Error HashEdge :=
  match read_file_in_dir s .edge hash with
  | .error e => .error e
  | .ok file => file_to_hash_edge file

/-- Source `read_edge`: fetch the `HashEdge`, then resolve the two endpoint
hashes against the `vertex/` partition. -/
def read_edge (s : Store) (hash : Hash) : Except Error Edge :=
  match read_hash_edge s hash with
  | .error e => .error e
  | .ok he =>
      match read_vertex_object s he.from_ with
      | .error e => .error e
      | .ok v0 =>
          match read_vertex_object s he.to_ with
          | .error e => .error e
          | .ok v1 => .ok (v0, v1)

/-- Source `read_edge_hash_vec`: fetch and decode the edge manifest. -/
def read_edge_hash_vec (s : Store) (hash : Hash) : Except Error (List Hash) :=
  match read_file_in_dir s .edgevec hash with
  | .error e => .error e
  | .ok file => file_to_hash_vec file

/-- Source `read_all_edges_from_files`: read every edge listed in the
manifest, in manifest order; first error wins. -/
def read_all_edges_from_files (s : Store) (hash_vec : List Hash) :
    Except Error (List Edge) :=
  match hash_vec with
  | [] => .ok []
  | h :: rest =>
      match read_edge s h with
      | .error e => .error e
      | .ok e =>
          match read_all_edges_from_files s rest with
          | .error err => .error err
          | .ok es => .ok (e :: es)

/-- Source `read_graph_edges`: read the manifest, read all edges, add them
to the provided graph. -/
def read_graph_edges (s : Store) (hash : Hash) (graph : DirectedGraph) :
    Except Error DirectedGraph :=
  match read_edge_hash_vec s hash with
  | .error e => .error e
  | .ok hash_vec =>
      match read_all_edges_from_files s hash_vec with
      | .error e => .error e
      | .ok edges => .ok (edges.foldl DirectedGraph.add_edge graph)

/-- Source `read_graph`: vertices into a fresh graph, then edges. -/
def read_graph (s : Store) (graph_hash : GraphHash) : Except Error DirectedGraph :=
  match read_graph_vertices s graph_hash.vertex_vec_hash DirectedGraph.new with
  | .error e => .error e
  | .ok graph => read_graph_edges s graph_hash.edge_vec_hash graph

/-- Source `load_graph`: read `graph/<name>` (absence is the spec's
`SnapshotNotFound`, §7), decode the root descriptor, delegate to
`read_graph`. -/
def load_graph (s : Store) (name : String) : Except Error DirectedGraph :=
  match findName s.graphPart name with
  | none => .error .snapshotNotFound
  | some content =>
      match decode_graph_hash content with
      | .error e => .error e
      | .ok graph_hash => read_graph s graph_hash

/-! ### Basic lemmas about the digest and the codec -/

theorem sha256_length (msg : Bytes) : (sha256 msg).length = 32 := by
  simp [sha256, wordBytes]

theorem hashOf_length (c : Bytes) : (hashOf c).bytes.length = 32 :=
  sha256_length c

theorem encode_u64_length (v : Nat) : (encode_u64 v).length = 8 := rfl

theorem decode_encode_u64 (v : Nat) (hv : v < 18446744073709551616) :
    decode_u64 (encode_u64 v) = some v := by
  simp only [encode_u64, decode_u64]
  rw [if_pos]
  · congr 1
    omega
  · refine ⟨?_, ?_, ?_, ?_, ?_, ?_, ?_, ?_⟩ <;> exact Nat.mod_lt _ (by omega)

theorem encode_u64_inj (v w : Nat) (hv : v < 18446744073709551616)
    (hw : w < 18446744073709551616) (h : encode_u64 v = encode_u64 w) : v = w := by
  simp only [encode_u64, List.cons.injEq, and_true] at h
  omega

theorem flatten_map_length (hv : List Hash) (h : ∀ a ∈ hv, a.bytes.length = 32) :
    ((hv.map Hash.bytes).flatten).length = 32 * hv.length := by
  induction hv with
  | nil => simp
  | cons a t ih =>
      simp only [List.map_cons, List.flatten_cons, List.length_append, List.length_cons]
      rw [h a (by simp), ih (fun b hb => h b (by simp [hb]))]
      ring

theorem split32_append (b t : Bytes) (hb : b.length = 32) :
    split32 (b ++ t) = ⟨b⟩ :: split32 t := by
  simp only [split32, List.length_append, hb]
  have h1 : (32 + t.length) / 32 = t.length / 32 + 1 := by omega
  rw [h1, List.range_succ_eq_map, List.map_cons]
  congr 1
  · simp [List.take_left' hb]
  · rw [List.map_map]
    apply List.map_congr_left
    intro i _
    simp only [Function.comp_apply]
    congr 2
    calc List.drop (32 * Nat.succ i) (b ++ t)
        = List.drop (32 * i) (List.drop 32 (b ++ t)) := by
          rw [List.drop_drop]
          congr 1
          omega
      _ = List.drop (32 * i) t := by rw [List.drop_left' hb]

theorem split32_flatten (hv : List Hash) (h : ∀ a ∈ hv, a.bytes.length = 32) :
    split32 ((hv.map Hash.bytes).flatten) = hv := by
  induction hv with
  | nil => simp [split32]
  | cons a t ih =>
      simp only [List.map_cons, List.flatten_cons]
      rw [split32_append _ _ (h a (by simp)), ih (fun b hb => h b (by simp [hb]))]

theorem file_to_hash_vec_hash_vec_to_file (hv : List Hash)
    (h32 : ∀ a ∈ hv, a.bytes.length = 32)
    (hlen : hv.length < 18446744073709551616) :
    file_to_hash_vec (hash_vec_to_file hv) = .ok hv := by
  simp only [hash_vec_to_file, encode_hash_vec, file_to_hash_vec,
    List.take_left' (encode_u64_length _), decode_encode_u64 _ hlen,
    List.drop_left' (encode_u64_length _)]
  rw [if_pos (flatten_map_length hv h32), split32_flatten hv h32]

theorem vertex_file_hash_length (v : VertexId) :
    (vertex_to_file v).hash.bytes.length = 32 := hashOf_length _

theorem edge_file_hash_length (e : Edge) :
    (edge_to_file e).hash.bytes.length = 32 := hashOf_length _

theorem manifest_file_hash_length (hv : List Hash) :
    (hash_vec_to_file hv).hash.bytes.length = 32 := hashOf_length _

theorem file_to_hash_edge_edge_to_file (e : Edge) :
    file_to_hash_edge (edge_to_file e) =
      .ok { from_ := (vertex_to_file e.1).hash, to_ := (vertex_to_file e.2).hash } := by
  simp only [edge_to_file, encode_hash_edge, file_to_hash_edge]
  rw [if_pos]
  · rw [List.take_left' (vertex_file_hash_length e.1),
        List.drop_left' (vertex_file_hash_length e.1)]
  · rw [List.length_append, vertex_file_hash_length, vertex_file_hash_length]

theorem decode_graph_hash_encode (gh : GraphHash)
    (h1 : gh.vertex_vec_hash.bytes.length = 32)
    (h2 : gh.edge_vec_hash.bytes.length = 32) :
    decode_graph_hash (encode_graph_hash gh) = .ok gh := by
  simp only [encode_graph_hash, decode_graph_hash]
  rw [if_pos]
  · rw [List.take_left' h1, List.drop_left' h1]
  · rw [List.length_append, h1, h2]

/-! ### Store-partition preservation lemmas -/

theorem putPart_vertexPart_of_ne (s : Store) (p : Partition) (entry : Bytes × Bytes)
    (h : p ≠ .vertex) : (s.putPart p entry).vertexPart = s.vertexPart := by
  cases p
  · exact absurd rfl h
  · rfl
  · rfl
  · rfl

theorem write_file_in_dir_vertexPart (p : Partition) (f : File) (w : WState)
    (h : p ≠ .vertex) :
    ((write_file_in_dir p f w).2).store.vertexPart = w.store.vertexPart := by
  simp only [write_file_in_dir]
  by_cases hb : w.oracle.headD false
  · rw [if_pos hb]
  · rw [if_neg hb]
    exact putPart_vertexPart_of_ne _ _ _ h

theorem write_all_edges_vertexPart (es : List Edge) (w : WState) :
    ((write_all_edges_to_files es w).2).store.vertexPart = w.store.vertexPart := by
  induction es generalizing w with
  | nil => rfl
  | cons e rest ih =>
      have h1 := write_file_in_dir_vertexPart .edge (edge_to_file e) w (by simp)
      simp only [write_all_edges_to_files]
      rcases hw : write_file_in_dir .edge (edge_to_file e) w with ⟨r, w'⟩
      rw [hw] at h1
      cases r with
      | error err => exact h1
      | ok u =>
          dsimp only
          have h2 := ih w'
          rcases hrest : write_all_edges_to_files rest w' with ⟨r2, w''⟩
          rw [hrest] at h2
          cases r2 with
          | error err => exact h2.trans h1
          | ok hs => exact h2.trans h1

/-! ### Lookup lemmas for the association-list store -/

theorem findIn_append_of_some (a b : List (Bytes × Bytes)) (k : Bytes) (c : Bytes)
    (h : findIn a k = some c) : findIn (a ++ b) k = some c := by
  induction a with
  | nil => simp [findIn] at h
  | cons p t ih =>
      simp only [findIn] at h ⊢
      by_cases hk : k = p.1
      · rcases p with ⟨k', v⟩
        rw [if_pos hk] at h ⊢
        exact h
      · rcases p with ⟨k', v⟩
        rw [if_neg hk] at h ⊢
        exact ih h

theorem findIn_append_of_none (a b : List (Bytes × Bytes)) (k : Bytes)
    (h : findIn a k = none) : findIn (a ++ b) k = findIn b k := by
  induction a with
  | nil => rfl
  | cons p t ih =>
      rcases p with ⟨k', v⟩
      simp only [findIn] at h ⊢
      by_cases hk : k = k'
      · rw [if_pos hk] at h
        cases h
      · rw [if_neg hk] at h ⊢
        exact ih h

theorem findIn_eq_none (a : List (Bytes × Bytes)) (k : Bytes)
    (h : ∀ p ∈ a, p.1 ≠ k) : findIn a k = none := by
  induction a with
  | nil => rfl
  | cons p t ih =>
      rcases p with ⟨k', v⟩
      simp only [findIn]
      rw [if_neg (fun hk => h (k', v) (by simp) (by simp [hk.symm]))]
      exact ih (fun q hq => h q (by simp [hq]))

/-- Looking up the key of an element `x` of `l` in the reversed entry list
written for `l` returns `x`'s content, provided keys are injective on `l`
(content addressing without hash collisions among the written objects). -/
theorem findIn_rev_map {α : Type} (l : List α) (key : α → Bytes) (content : α → Bytes)
    (x : α) (hinj : ∀ a ∈ l, ∀ b ∈ l, key a = key b → a = b) (hx : x ∈ l) :
    findIn ((l.map (fun a => (key a, content a))).reverse) (key x) = some (content x) := by
  induction l with
  | nil => cases hx
  | cons a t ih =>
      simp only [List.map_cons, List.reverse_cons]
      by_cases hxt : x ∈ t
      · exact findIn_append_of_some _ _ _ _
          (ih (fun p hp q hq => hinj p (by simp [hp]) q (by simp [hq])) hxt)
      · have hxa : x = a := by
          rcases List.mem_cons.mp hx with h | h
          · exact h
          · exact absurd h hxt
        subst hxa
        rw [findIn_append_of_none]
        · simp [findIn]
        · apply findIn_eq_none
          intro p hp
          rcases List.mem_reverse.mp hp with hp'
          rcases List.mem_map.mp (by simpa using hp') with ⟨b, hb, hbp⟩
          subst hbp
          intro hkey
          exact hxt (hinj b (by simp [hb]) x (by simp) hkey ▸ hb)

/-! ### What a successful write leaves in the store -/

/-- The hashes collected by the vertex writer, in iteration order. -/
def vertex_hashes (vs : List VertexId) : List Hash :=
  vs.map (fun v => (vertex_to_file v).hash)

/-- The hashes collected by the edge writer, in iteration order. -/
def edge_hashes (es : List Edge) : List Hash :=
  es.map (fun e => (edge_to_file e).hash)

/-- The store entry (key, content) a written file occupies. -/
def store_entry_file (f : File) : Bytes × Bytes := (f.hash.bytes, f.content)

/-- The root descriptor `write_graph` computes, as a pure function of the
iteration sequences. -/
def graph_hash_of (vs : List VertexId) (es : List Edge) : GraphHash :=
  { vertex_vec_hash := (hash_vec_to_file (vertex_hashes vs)).hash,
    edge_vec_hash := (hash_vec_to_file (edge_hashes es)).hash }

theorem write_file_in_dir_ok (p : Partition) (f : File) (w : WState) (u : Unit)
    (w' : WState) (h : write_file_in_dir p f w = (.ok u, w')) :
    w'.store = w.store.putPart p (f.hash.bytes, f.content) := by
  simp only [write_file_in_dir] at h
  by_cases hb : w.oracle.headD false
  · rw [if_pos hb] at h
    simp at h
  · rw [if_neg hb] at h
    simp only [Prod.mk.injEq] at h
    rw [← h.2]

theorem write_all_vertices_ok_spec (vs : List VertexId) (w : WState) (hs : List Hash)
    (w' : WState) (hw : write_all_vertices_to_files vs w = (.ok hs, w')) :
    hs = vertex_hashes vs ∧
    w'.store.vertexPart =
      (vs.map (fun v => store_entry_file (vertex_to_file v))).reverse ++ w.store.vertexPart ∧
    w'.store.edgePart = w.store.edgePart ∧
    w'.store.vertexvecPart = w.store.vertexvecPart ∧
    w'.store.edgevecPart = w.store.edgevecPart ∧
    w'.store.graphPart = w.store.graphPart := by
  induction vs generalizing w hs w' with
  | nil =>
      simp only [write_all_vertices_to_files, Prod.mk.injEq, Except.ok.injEq] at hw
      obtain ⟨hw1, hw2⟩ := hw
      subst hw1
      subst hw2
      simp [vertex_hashes]
  | cons v t ih =>
      simp only [write_all_vertices_to_files] at hw
      rcases hwf : write_file_in_dir .vertex (vertex_to_file v) w with ⟨r, w₁⟩
      rw [hwf] at hw
      cases r with
      | error e => simp at hw
      | ok u =>
          dsimp only at hw
          rcases hrest : write_all_vertices_to_files t w₁ with ⟨r2, w₂⟩
          rw [hrest] at hw
          cases r2 with
          | error e => simp at hw
          | ok hs' =>
              simp only [Prod.mk.injEq, Except.ok.injEq] at hw
              obtain ⟨hw1, hw2⟩ := hw
              subst hw1
              subst hw2
              have hstep := write_file_in_dir_ok _ _ _ _ _ hwf
              obtain ⟨ih1, ih2, ih3, ih4, ih5, ih6⟩ := ih w₁ hs' _ hrest
              subst ih1
              refine ⟨rfl, ?_, ?_, ?_, ?_, ?_⟩
              · rw [ih2, hstep]
                simp [Store.putPart, store_entry_file, List.append_assoc]
              · rw [ih3, hstep]
                rfl
              · rw [ih4, hstep]
                rfl
              · rw [ih5, hstep]
                rfl
              · rw [ih6, hstep]
                rfl

theorem write_vertex_hash_vec_file_ok_spec (hv : List Hash) (w : WState) (h : Hash)
    (w' : WState) (hw : write_vertex_hash_vec_file hv w = (.ok h, w')) :
    h = (hash_vec_to_file hv).hash ∧
    w'.store.vertexPart = w.store.vertexPart ∧
    w'.store.edgePart = w.store.edgePart ∧
    w'.store.vertexvecPart = store_entry_file (hash_vec_to_file hv) :: w.store.vertexvecPart ∧
    w'.store.edgevecPart = w.store.edgevecPart ∧
    w'.store.graphPart = w.store.graphPart := by
  simp only [write_vertex_hash_vec_file] at hw
  rcases hwf : write_file_in_dir .vertexvec (hash_vec_to_file hv) w with ⟨r, w₁⟩
  rw [hwf] at hw
  cases r with
  | error e => simp at hw
  | ok u =>
      simp only [Prod.mk.injEq, Except.ok.injEq] at hw
      obtain ⟨hw1, hw2⟩ := hw
      subst hw1
      subst hw2
      have hstep := write_file_in_dir_ok _ _ _ _ _ hwf
      rw [hstep]
      exact ⟨rfl, rfl, rfl, rfl, rfl, rfl⟩

theorem write_edge_hash_vec_file_ok_spec (hv : List Hash) (w : WState) (h : Hash)
    (w' : WState) (hw : write_edge_hash_vec_file hv w = (.ok h, w')) :
    h = (hash_vec_to_file hv).hash ∧
    w'.store.vertexPart = w.store.vertexPart ∧
    w'.store.edgePart = w.store.edgePart ∧
    w'.store.vertexvecPart = w.store.vertexvecPart ∧
    w'.store.edgevecPart = store_entry_file (hash_vec_to_file hv) :: w.store.edgevecPart ∧
    w'.store.graphPart = w.store.graphPart := by
  simp only [write_edge_hash_vec_file] at hw
  rcases hwf : write_file_in_dir .edgevec (hash_vec_to_file hv) w with ⟨r, w₁⟩
  rw [hwf] at hw
  cases r with
  | error e => simp at hw
  | ok u =>
      simp only [Prod.mk.injEq, Except.ok.injEq] at hw
      obtain ⟨hw1, hw2⟩ := hw
      subst hw1
      subst hw2
      have hstep := write_file_in_dir_ok _ _ _ _ _ hwf
      rw [hstep]
      exact ⟨rfl, rfl, rfl, rfl, rfl, rfl⟩

theorem write_all_edges_ok_spec (es : List Edge) (w : WState) (hs : List Hash)
    (w' : WState) (hw : write_all_edges_to_files es w = (.ok hs, w')) :
    hs = edge_hashes es ∧
    w'.store.vertexPart = w.store.vertexPart ∧
    w'.store.edgePart =
      (es.map (fun e => store_entry_file (edge_to_file e))).reverse ++ w.store.edgePart ∧
    w'.store.vertexvecPart = w.store.vertexvecPart ∧
    w'.store.edgevecPart = w.store.edgevecPart ∧
    w'.store.graphPart = w.store.graphPart := by
  induction es generalizing w hs w' with
  | nil =>
      simp only [write_all_edges_to_files, Prod.mk.injEq, Except.ok.injEq] at hw
      obtain ⟨hw1, hw2⟩ := hw
      subst hw1
      subst hw2
      simp [edge_hashes]
  | cons e t ih =>
      simp only [write_all_edges_to_files] at hw
      rcases hwf : write_file_in_dir .edge (edge_to_file e) w with ⟨r, w₁⟩
      rw [hwf] at hw
      cases r with
      | error err => simp at hw
      | ok u =>
          dsimp only at hw
          rcases hrest : write_all_edges_to_files t w₁ with ⟨r2, w₂⟩
          rw [hrest] at hw
          cases r2 with
          | error err => simp at hw
          | ok hs' =>
              simp only [Prod.mk.injEq, Except.ok.injEq] at hw
              obtain ⟨hw1, hw2⟩ := hw
              subst hw1
              subst hw2
              have hstep := write_file_in_dir_ok _ _ _ _ _ hwf
              obtain ⟨ih1, ih2, ih3, ih4, ih5, ih6⟩ := ih w₁ hs' _ hrest
              subst ih1
              refine ⟨rfl, ?_, ?_, ?_, ?_, ?_⟩
              · rw [ih2, hstep]
                rfl
              · rw [ih3, hstep]
                simp [Store.putPart, store_entry_file, List.append_assoc]
              · rw [ih4, hstep]
                rfl
              · rw [ih5, hstep]
                rfl
              · rw [ih6, hstep]
                rfl

theorem write_graph_vertices_ok_spec (vs : List VertexId) (w : WState) (h : Hash)
    (w' : WState) (hw : write_graph_vertices vs w = (.ok h, w')) :
    h = (hash_vec_to_file (vertex_hashes vs)).hash ∧
    w'.store.vertexPart =
      (vs.map (fun v => store_entry_file (vertex_to_file v))).reverse ++ w.store.vertexPart ∧
    w'.store.edgePart = w.store.edgePart ∧
    w'.store.vertexvecPart =
      store_entry_file (hash_vec_to_file (vertex_hashes vs)) :: w.store.vertexvecPart ∧
    w'.store.edgevecPart = w.store.edgevecPart ∧
    w'.store.graphPart = w.store.graphPart := by
  simp only [write_graph_vertices] at hw
  rcases hall : write_all_vertices_to_files vs w with ⟨r, w₁⟩
  rw [hall] at hw
  cases r with
  | error e => simp at hw
  | ok hs =>
      dsimp only at hw
      obtain ⟨h1, h2, h3, h4, h5, h6⟩ := write_all_vertices_ok_spec vs w hs w₁ hall
      subst h1
      obtain ⟨g1, g2, g3, g4, g5, g6⟩ := write_vertex_hash_vec_file_ok_spec _ _ _ _ hw
      exact ⟨g1, by rw [g2, h2], by rw [g3, h3], by rw [g4, h4], by rw [g5, h5],
             by rw [g6, h6]⟩

theorem write_graph_edges_ok_spec (es : List Edge) (w : WState) (h : Hash)
    (w' : WState) (hw : write_graph_edges es w = (.ok h, w')) :
    h = (hash_vec_to_file (edge_hashes es)).hash ∧
    w'.store.vertexPart = w.store.vertexPart ∧
    w'.store.edgePart =
      (es.map (fun e => store_entry_file (edge_to_file e))).reverse ++ w.store.edgePart ∧
    w'.store.vertexvecPart = w.store.vertexvecPart ∧
    w'.store.edgevecPart =
      store_entry_file (hash_vec_to_file (edge_hashes es)) :: w.store.edgevecPart ∧
    w'.store.graphPart = w.store.graphPart := by
  simp only [write_graph_edges] at hw
  rcases hall : write_all_edges_to_files es w with ⟨r, w₁⟩
  rw [hall] at hw
  cases r with
  | error e => simp at hw
  | ok hs =>
      dsimp only at hw
      obtain ⟨h1, h2, h3, h4, h5, h6⟩ := write_all_edges_ok_spec es w hs w₁ hall
      subst h1
      obtain ⟨g1, g2, g3, g4, g5, g6⟩ := write_edge_hash_vec_file_ok_spec _ _ _ _ hw
      exact ⟨g1, by rw [g2, h2], by rw [g3, h3], by rw [g4, h4], by rw [g5, h5],
             by rw [g6, h6]⟩

theorem write_graph_ok_spec (vs : List VertexId) (es : List Edge) (w : WState)
    (gh : GraphHash) (w' : WState) (hw : write_graph vs es w = (.ok gh, w')) :
    gh = graph_hash_of vs es ∧
    w'.store.vertexPart =
      (vs.map (fun v => store_entry_file (vertex_to_file v))).reverse ++ w.store.vertexPart ∧
    w'.store.edgePart =
      (es.map (fun e => store_entry_file (edge_to_file e))).reverse ++ w.store.edgePart ∧
    w'.store.vertexvecPart =
      store_entry_file (hash_vec_to_file (vertex_hashes vs)) :: w.store.vertexvecPart ∧
    w'.store.edgevecPart =
      store_entry_file (hash_vec_to_file (edge_hashes es)) :: w.store.edgevecPart ∧
    w'.store.graphPart = w.store.graphPart := by
  simp only [write_graph] at hw
  rcases hv : write_graph_vertices vs w with ⟨r, w₁⟩
  rw [hv] at hw
  cases r with
  | error e => simp at hw
  | ok vvh =>
      dsimp only at hw
      rcases he : write_graph_edges es w₁ with ⟨r2, w₂⟩
      rw [he] at hw
      cases r2 with
      | error e => simp at hw
      | ok evh =>
          simp only [Prod.mk.injEq, Except.ok.injEq] at hw
          obtain ⟨hw1, hw2⟩ := hw
          subst hw2
          obtain ⟨a1, a2, a3, a4, a5, a6⟩ := write_graph_vertices_ok_spec vs w vvh w₁ hv
          obtain ⟨b1, b2, b3, b4, b5, b6⟩ := write_graph_edges_ok_spec es w₁ evh _ he
          subst a1
          subst b1
          subst hw1
          exact ⟨rfl, by rw [b2, a2], by rw [b3, a3], by rw [b4, a4], by rw [b5, a5],
                 by rw [b6, a6]⟩

/-! ### `write_graph` never touches the snapshot registry (`graph/` entries) -/

theorem write_file_in_dir_graphPart (p : Partition) (f : File) (w : WState) :
    ((write_file_in_dir p f w).2).store.graphPart = w.store.graphPart := by
  simp only [write_file_in_dir]
  by_cases hb : w.oracle.headD false
  · rw [if_pos hb]
  · rw [if_neg hb]
    cases p <;> rfl

theorem write_all_vertices_graphPart (vs : List VertexId) (w : WState) :
    ((write_all_vertices_to_files vs w).2).store.graphPart = w.store.graphPart := by
  induction vs generalizing w with
  | nil => rfl
  | cons v t ih =>
      have h1 := write_file_in_dir_graphPart .vertex (vertex_to_file v) w
      simp only [write_all_vertices_to_files]
      rcases hw : write_file_in_dir .vertex (vertex_to_file v) w with ⟨r, w'⟩
      rw [hw] at h1
      cases r with
      | error err => exact h1
      | ok u =>
          dsimp only
          have h2 := ih w'
          rcases hrest : write_all_vertices_to_files t w' with ⟨r2, w''⟩
          rw [hrest] at h2
          cases r2 with
          | error err => exact h2.trans h1
          | ok hs => exact h2.trans h1

theorem write_all_edges_graphPart (es : List Edge) (w : WState) :
    ((write_all_edges_to_files es w).2).store.graphPart = w.store.graphPart := by
  induction es generalizing w with
  | nil => rfl
  | cons e t ih =>
      have h1 := write_file_in_dir_graphPart .edge (edge_to_file e) w
      simp only [write_all_edges_to_files]
      rcases hw : write_file_in_dir .edge (edge_to_file e) w with ⟨r, w'⟩
      rw [hw] at h1
      cases r with
      | error err => exact h1
      | ok u =>
          dsimp only
          have h2 := ih w'
          rcases hrest : write_all_edges_to_files t w' with ⟨r2, w''⟩
          rw [hrest] at h2
          cases r2 with
          | error err => exact h2.trans h1
          | ok hs => exact h2.trans h1

theorem write_vertex_hash_vec_file_graphPart (hv : List Hash) (w : WState) :
    ((write_vertex_hash_vec_file hv w).2).store.graphPart = w.store.graphPart := by
  have h1 := write_file_in_dir_graphPart .vertexvec (hash_vec_to_file hv) w
  simp only [write_vertex_hash_vec_file]
  rcases hw : write_file_in_dir .vertexvec (hash_vec_to_file hv) w with ⟨r, w'⟩
  rw [hw] at h1
  cases r with
  | error err => exact h1
  | ok u => exact h1

theorem write_edge_hash_vec_file_graphPart (hv : List Hash) (w : WState) :
    ((write_edge_hash_vec_file hv w).2).store.graphPart = w.store.graphPart := by
  have h1 := write_file_in_dir_graphPart .edgevec (hash_vec_to_file hv) w
  simp only [write_edge_hash_vec_file]
  rcases hw : write_file_in_dir .edgevec (hash_vec_to_file hv) w with ⟨r, w'⟩
  rw [hw] at h1
  cases r with
  | error err => exact h1
  | ok u => exact h1

theorem write_graph_vertices_graphPart (vs : List VertexId) (w : WState) :
    ((write_graph_vertices vs w).2).store.graphPart = w.store.graphPart := by
  have h1 := write_all_vertices_graphPart vs w
  simp only [write_graph_vertices]
  rcases hw : write_all_vertices_to_files vs w with ⟨r, w'⟩
  rw [hw] at h1
  cases r with
  | error err => exact h1
  | ok hs => exact (write_vertex_hash_vec_file_graphPart hs w').trans h1

theorem write_graph_edges_graphPart (es : List Edge) (w : WState) :
    ((write_graph_edges es w).2).store.graphPart = w.store.graphPart := by
  have h1 := write_all_edges_graphPart es w
  simp only [write_graph_edges]
  rcases hw : write_all_edges_to_files es w with ⟨r, w'⟩
  rw [hw] at h1
  cases r with
  | error err => exact h1
  | ok hs => exact (write_edge_hash_vec_file_graphPart hs w').trans h1

theorem write_graph_graphPart (vs : List VertexId) (es : List Edge) (w : WState) :
    ((write_graph vs es w).2).store.graphPart = w.store.graphPart := by
  have h1 := write_graph_vertices_graphPart vs w
  simp only [write_graph]
  rcases hw : write_graph_vertices vs w with ⟨r, w'⟩
  rw [hw] at h1
  cases r with
  | error err => exact h1
  | ok vvh =>
      dsimp only
      have h2 := write_graph_edges_graphPart es w'
      rcases hrest : write_graph_edges es w' with ⟨r2, w''⟩
      rw [hrest] at h2
      cases r2 with
      | error err => exact h2.trans h1
      | ok evh => exact h2.trans h1

/-! ### Reading back what was written -/

theorem hash_eq_of_bytes (h₁ h₂ : Hash) (h : h₁.bytes = h₂.bytes) : h₁ = h₂ := by
  cases h₁
  cases h₂
  cases h
  rfl

theorem file_to_vertex_vertex_to_file (v : VertexId) :
    file_to_vertex (vertex_to_file v) = .ok v := by
  have hv := v.isLt
  simp only [vertex_to_file, encode_u64, file_to_vertex]
  rw [dif_pos]
  · congr 1
    apply Fin.ext
    simp only
    omega
  · refine ⟨?_, ?_, ?_, ?_, ?_, ?_, ?_, ?_⟩ <;> exact Nat.mod_lt _ (by omega)

/-- No SHA-256 collisions among the vertex objects written for `vs`.  The
spec assumes collision resistance of the digest (§3: "collision resistance
assumed, not verified"); on any concrete vertex list the property is
checked by computation. -/
def HashInjOnV (vs : List VertexId) : Prop :=
  ∀ a ∈ vs, ∀ b ∈ vs, (vertex_to_file a).hash = (vertex_to_file b).hash → a = b

instance (vs : List VertexId) : Decidable (HashInjOnV vs) :=
  inferInstanceAs (Decidable (∀ a ∈ vs, ∀ b ∈ vs,
    (vertex_to_file a).hash = (vertex_to_file b).hash → a = b))

/-- No SHA-256 collisions among the edge objects written for `es`. -/
def HashInjOnE (es : List Edge) : Prop :=
  ∀ a ∈ es, ∀ b ∈ es, (edge_to_file a).hash = (edge_to_file b).hash → a = b

instance (es : List Edge) : Decidable (HashInjOnE es) :=
  inferInstanceAs (Decidable (∀ a ∈ es, ∀ b ∈ es,
    (edge_to_file a).hash = (edge_to_file b).hash → a = b))

theorem read_vertex_object_of_parts (s : Store) (vs : List VertexId)
    (init : List (Bytes × Bytes)) (v : VertexId)
    (hvp : s.vertexPart =
      (vs.map (fun a => store_entry_file (vertex_to_file a))).reverse ++ init)
    (hinj : HashInjOnV vs) (hv : v ∈ vs) :
    read_vertex_object s (vertex_to_file v).hash = .ok v := by
  have hfind : findIn s.vertexPart (vertex_to_file v).hash.bytes =
      some (vertex_to_file v).content := by
    rw [hvp]
    apply findIn_append_of_some
    exact findIn_rev_map vs (fun a => (vertex_to_file a).hash.bytes)
      (fun a => (vertex_to_file a).content) v
      (fun a ha b hb hk => hinj a ha b hb (hash_eq_of_bytes _ _ hk)) hv
  simp only [read_vertex_object, read_file_in_dir, Store.part, hfind]
  exact file_to_vertex_vertex_to_file v

theorem read_all_vertices_of_pointwise (s : Store) (vs : List VertexId)
    (h : ∀ v ∈ vs, read_vertex_object s (vertex_to_file v).hash = .ok v) :
    read_all_vertices_from_files s (vertex_hashes vs) = .ok vs := by
  induction vs with
  | nil => rfl
  | cons v t ih =>
      simp only [vertex_hashes, List.map_cons, read_all_vertices_from_files]
      rw [h v (by simp)]
      have := ih (fun x hx => h x (by simp [hx]))
      simp only [vertex_hashes] at this
      rw [this]

theorem read_vertex_hash_vec_of_part (s : Store) (hv : List Hash)
    (initvv : List (Bytes × Bytes))
    (hvv : s.vertexvecPart = store_entry_file (hash_vec_to_file hv) :: initvv)
    (h32 : ∀ a ∈ hv, a.bytes.length = 32)
    (hlen : hv.length < 18446744073709551616) :
    read_vertex_hash_vec s (hash_vec_to_file hv).hash = .ok hv := by
  simp only [read_vertex_hash_vec, read_file_in_dir, Store.part, hvv,
    store_entry_file, findIn, if_pos]
  exact file_to_hash_vec_hash_vec_to_file hv h32 hlen

theorem read_edge_hash_vec_of_part (s : Store) (hv : List Hash)
    (initev : List (Bytes × Bytes))
    (hev : s.edgevecPart = store_entry_file (hash_vec_to_file hv) :: initev)
    (h32 : ∀ a ∈ hv, a.bytes.length = 32)
    (hlen : hv.length < 18446744073709551616) :
    read_edge_hash_vec s (hash_vec_to_file hv).hash = .ok hv := by
  simp only [read_edge_hash_vec, read_file_in_dir, Store.part, hev,
    store_entry_file, findIn, if_pos]
  exact file_to_hash_vec_hash_vec_to_file hv h32 hlen

theorem read_edge_of_parts (s : Store) (es : List Edge)
    (init : List (Bytes × Bytes)) (e : Edge)
    (hep : s.edgePart =
      (es.map (fun a => store_entry_file (edge_to_file a))).reverse ++ init)
    (hinj : HashInjOnE es) (he : e ∈ es)
    (h1 : read_vertex_object s (vertex_to_file e.1).hash = .ok e.1)
    (h2 : read_vertex_object s (vertex_to_file e.2).hash = .ok e.2) :
    read_edge s (edge_to_file e).hash = .ok e := by
  have hfind : findIn s.edgePart (edge_to_file e).hash.bytes =
      some (edge_to_file e).content := by
    rw [hep]
    apply findIn_append_of_some
    exact findIn_rev_map es (fun a => (edge_to_file a).hash.bytes)
      (fun a => (edge_to_file a).content) e
      (fun a ha b hb hk => hinj a ha b hb (hash_eq_of_bytes _ _ hk)) he
  have hhe : read_hash_edge s (edge_to_file e).hash =
      .ok { from_ := (vertex_to_file e.1).hash, to_ := (vertex_to_file e.2).hash } := by
    simp only [read_hash_edge, read_file_in_dir, Store.part, hfind]
    exact file_to_hash_edge_edge_to_file e
  simp only [read_edge, hhe, h1, h2]

theorem read_all_edges_of_pointwise (s : Store) (es : List Edge)
    (h : ∀ e ∈ es, read_edge s (edge_to_file e).hash = .ok e) :
    read_all_edges_from_files s (edge_hashes es) = .ok es := by
  induction es with
  | nil => rfl
  | cons e t ih =>
      simp only [edge_hashes, List.map_cons, read_all_edges_from_files]
      rw [h e (by simp)]
      have := ih (fun x hx => h x (by simp [hx]))
      simp only [edge_hashes] at this
      rw [this]

theorem foldl_add_vertex (vs : List VertexId) (g : DirectedGraph) :
    vs.foldl DirectedGraph.add_vertex g = ⟨g.vertices ∪ vs.toFinset, g.edges⟩ := by
  induction vs generalizing g with
  | nil => simp
  | cons v t ih =>
      simp only [List.foldl_cons, ih, DirectedGraph.add_vertex, List.toFinset_cons]
      congr 1
      rw [Finset.insert_union, Finset.union_insert]

theorem foldl_add_edge (es : List Edge) (g : DirectedGraph) :
    es.foldl DirectedGraph.add_edge g = ⟨g.vertices, g.edges ∪ es.toFinset⟩ := by
  induction es generalizing g with
  | nil => simp
  | cons e t ih =>
      simp only [List.foldl_cons, ih, DirectedGraph.add_edge, List.toFinset_cons]
      congr 1
      rw [Finset.insert_union, Finset.union_insert]

theorem vertex_hashes_length32 (vs : List VertexId) :
    ∀ a ∈ vertex_hashes vs, a.bytes.length = 32 := by
  intro a ha
  simp only [vertex_hashes, List.mem_map] at ha
  rcases ha with ⟨x, _, rfl⟩
  exact vertex_file_hash_length x

theorem edge_hashes_length32 (es : List Edge) :
    ∀ a ∈ edge_hashes es, a.bytes.length = 32 := by
  intro a ha
  simp only [edge_hashes, List.mem_map] at ha
  rcases ha with ⟨x, _, rfl⟩
  exact edge_file_hash_length x

theorem read_graph_vertices_of_parts (s : Store) (vs : List VertexId)
    (init initvv : List (Bytes × Bytes)) (g : DirectedGraph)
    (hvp : s.vertexPart =
      (vs.map (fun a => store_entry_file (vertex_to_file a))).reverse ++ init)
    (hvv : s.vertexvecPart =
      store_entry_file (hash_vec_to_file (vertex_hashes vs)) :: initvv)
    (hinj : HashInjOnV vs) (hlen : vs.length < 18446744073709551616) :
    read_graph_vertices s (hash_vec_to_file (vertex_hashes vs)).hash g =
      .ok ⟨g.vertices ∪ vs.toFinset, g.edges⟩ := by
  have hmv : read_vertex_hash_vec s (hash_vec_to_file (vertex_hashes vs)).hash =
      .ok (vertex_hashes vs) :=
    read_vertex_hash_vec_of_part s _ initvv hvv (vertex_hashes_length32 vs)
      (by simpa [vertex_hashes] using hlen)
  have hall : read_all_vertices_from_files s (vertex_hashes vs) = .ok vs :=
    read_all_vertices_of_pointwise s vs
      (fun v hv => read_vertex_object_of_parts s vs init v hvp hinj hv)
  simp only [read_graph_vertices, hmv, hall]
  rw [foldl_add_vertex]

theorem read_graph_edges_of_parts (s : Store) (es : List Edge)
    (init initev : List (Bytes × Bytes)) (g : DirectedGraph)
    (hep : s.edgePart =
      (es.map (fun a => store_entry_file (edge_to_file a))).reverse ++ init)
    (hev : s.edgevecPart =
      store_entry_file (hash_vec_to_file (edge_hashes es)) :: initev)
    (hinj : HashInjOnE es) (hlen : es.length < 18446744073709551616)
    (hend : ∀ e ∈ es, read_vertex_object s (vertex_to_file e.1).hash = .ok e.1 ∧
                      read_vertex_object s (vertex_to_file e.2).hash = .ok e.2) :
    read_graph_edges s (hash_vec_to_file (edge_hashes es)).hash g =
      .ok ⟨g.vertices, g.edges ∪ es.toFinset⟩ := by
  have hme : read_edge_hash_vec s (hash_vec_to_file (edge_hashes es)).hash =
      .ok (edge_hashes es) :=
    read_edge_hash_vec_of_part s _ initev hev (edge_hashes_length32 es)
      (by simpa [edge_hashes] using hlen)
  have hall : read_all_edges_from_files s (edge_hashes es) = .ok es :=
    read_all_edges_of_pointwise s es
      (fun e he => read_edge_of_parts s es init e hep hinj he (hend e he).1 (hend e he).2)
  simp only [read_graph_edges, hme, hall]
  rw [foldl_add_edge]

/-- After a successful `write_graph` of the iteration sequences `vs`, `es`,
reading the returned root back from the resulting store yields exactly the
graph with vertex set `vs.toFinset` and edge set `es.toFinset` — provided
every edge endpoint occurs among the written vertices and the written
objects do not collide under SHA-256. -/
theorem read_after_write_graph (vs : List VertexId) (es : List Edge) (w : WState)
    (gh : GraphHash) (w' : WState)
    (hw : write_graph vs es w = (.ok gh, w'))
    (hinjV : HashInjOnV vs) (hinjE : HashInjOnE es)
    (hlenV : vs.length < 18446744073709551616)
    (hlenE : es.length < 18446744073709551616)
    (hwf : ∀ e ∈ es, e.1 ∈ vs ∧ e.2 ∈ vs) :
    read_graph w'.store gh = .ok ⟨vs.toFinset, es.toFinset⟩ := by
  obtain ⟨hgh, hvp, hep, hvv, hev, hgp⟩ := write_graph_ok_spec vs es w gh w' hw
  subst hgh
  have hvstage := read_graph_vertices_of_parts w'.store vs _ _ DirectedGraph.new
    hvp hvv hinjV hlenV
  have hend : ∀ e ∈ es, read_vertex_object w'.store (vertex_to_file e.1).hash = .ok e.1 ∧
      read_vertex_object w'.store (vertex_to_file e.2).hash = .ok e.2 :=
    fun e he => ⟨read_vertex_object_of_parts w'.store vs _ e.1 hvp hinjV (hwf e he).1,
                 read_vertex_object_of_parts w'.store vs _ e.2 hvp hinjV (hwf e he).2⟩
  have hestage := read_graph_edges_of_parts w'.store es _ _
    (⟨DirectedGraph.new.vertices ∪ vs.toFinset, DirectedGraph.new.edges⟩ : DirectedGraph)
    hep hev hinjE hlenE hend
  simp only [read_graph, graph_hash_of, hvstage, hestage]
  simp [DirectedGraph.new]

/-! ### With no injected I/O failure, every write succeeds -/

theorem write_file_in_dir_nil (p : Partition) (f : File) (s : Store) :
    write_file_in_dir p f ⟨s, []⟩ =
      (.ok (), ⟨s.putPart p (f.hash.bytes, f.content), []⟩) := rfl

theorem write_all_vertices_nil_oracle (vs : List VertexId) (s : Store) :
    ∃ hs s', write_all_vertices_to_files vs ⟨s, []⟩ = (.ok hs, ⟨s', []⟩) := by
  induction vs generalizing s with
  | nil => exact ⟨[], s, rfl⟩
  | cons v t ih =>
      obtain ⟨hs, s', h⟩ :=
        ih (s.putPart .vertex ((vertex_to_file v).hash.bytes, (vertex_to_file v).content))
      refine ⟨(vertex_to_file v).hash :: hs, s', ?_⟩
      simp only [write_all_vertices_to_files, write_file_in_dir_nil, h]

theorem write_all_edges_nil_oracle (es : List Edge) (s : Store) :
    ∃ hs s', write_all_edges_to_files es ⟨s, []⟩ = (.ok hs, ⟨s', []⟩) := by
  induction es generalizing s with
  | nil => exact ⟨[], s, rfl⟩
  | cons e t ih =>
      obtain ⟨hs, s', h⟩ :=
        ih (s.putPart .edge ((edge_to_file e).hash.bytes, (edge_to_file e).content))
      refine ⟨(edge_to_file e).hash :: hs, s', ?_⟩
      simp only [write_all_edges_to_files, write_file_in_dir_nil, h]

theorem write_graph_vertices_nil_oracle (vs : List VertexId) (s : Store) :
    ∃ h s', write_graph_vertices vs ⟨s, []⟩ = (.ok h, ⟨s', []⟩) := by
  obtain ⟨hs, s₁, h₁⟩ := write_all_vertices_nil_oracle vs s
  refine ⟨(hash_vec_to_file hs).hash,
    s₁.putPart .vertexvec ((hash_vec_to_file hs).hash.bytes, (hash_vec_to_file hs).content),
    ?_⟩
  simp only [write_graph_vertices, h₁, write_vertex_hash_vec_file, write_file_in_dir_nil]

theorem write_graph_edges_nil_oracle (es : List Edge) (s : Store) :
    ∃ h s', write_graph_edges es ⟨s, []⟩ = (.ok h, ⟨s', []⟩) := by
  obtain ⟨hs, s₁, h₁⟩ := write_all_edges_nil_oracle es s
  refine ⟨(hash_vec_to_file hs).hash,
    s₁.putPart .edgevec ((hash_vec_to_file hs).hash.bytes, (hash_vec_to_file hs).content),
    ?_⟩
  simp only [write_graph_edges, h₁, write_edge_hash_vec_file, write_file_in_dir_nil]

theorem write_graph_nil_oracle (vs : List VertexId) (es : List Edge) (s : Store) :
    ∃ gh s', write_graph vs es ⟨s, []⟩ = (.ok gh, ⟨s', []⟩) := by
  obtain ⟨h₁, s₁, hv⟩ := write_graph_vertices_nil_oracle vs s
  obtain ⟨h₂, s₂, he⟩ := write_graph_edges_nil_oracle es s₁
  exact ⟨⟨h₁, h₂⟩, s₂, by simp only [write_graph, hv, he]⟩

/-! ### Concrete fixtures for the closed instances -/

def wv1 : VertexId := ⟨1, by decide⟩

def wv2 : VertexId := ⟨2, by decide⟩

theorem wv1_file_eq : vertex_to_file wv1 =
    { content := [1, 0, 0, 0, 0, 0, 0, 0],
      hash := ⟨[124, 159, 161, 54, 212, 65, 63, 166, 23, 54, 55, 232, 131, 182, 153,
                141, 50, 225, 214, 117, 248, 140, 221, 255, 157, 203, 207, 51, 24, 32,
                244, 184]⟩ } := by decide

theorem wv2_file_eq : vertex_to_file wv2 =
    { content := [2, 0, 0, 0, 0, 0, 0, 0],
      hash := ⟨[216, 110, 129, 18, 243, 196, 196, 68, 33, 38, 248, 233, 244, 79, 22,
                134, 125, 164, 135, 242, 144, 82, 191, 145, 184, 16, 69, 125, 179, 66,
                9, 164]⟩ } := by decide

theorem hash_ne_wv12 : (vertex_to_file wv1).hash ≠ (vertex_to_file wv2).hash := by
  rw [wv1_file_eq, wv2_file_eq]
  decide

theorem hash_inj_wv12 : HashInjOnV [wv1, wv2] := by
  intro a ha b hb hab
  simp only [List.mem_cons, List.not_mem_nil, or_false] at ha hb
  rcases ha with rfl | rfl <;> rcases hb with rfl | rfl
  · rfl
  · exact absurd hab hash_ne_wv12
  · exact absurd hab.symm hash_ne_wv12
  · rfl

theorem hash_inj_e12 : HashInjOnE [(wv1, wv2)] := by
  intro a ha b hb _
  simp only [List.mem_cons, List.not_mem_nil, or_false] at ha hb
  rw [ha, hb]

/-- The concrete well-formed graph with vertices {1, 2} and edge (1, 2). -/
def G1 : DirectedGraph := ⟨{wv1, wv2}, {(wv1, wv2)}⟩

theorem G1_wf : ∀ e ∈ G1.edges, e.1 ∈ G1.vertices ∧ e.2 ∈ G1.vertices := by
  intro e he
  simp only [G1, Finset.mem_singleton] at he
  subst he
  refine ⟨?_, ?_⟩ <;> simp [G1]

def c1w_result : Except Error GraphHash × WState :=
  write_graph [wv1, wv2] [(wv1, wv2)] ⟨Store.empty, []⟩

theorem c1w_result_eq :
    c1w_result = (.ok (graph_hash_of [wv1, wv2] [(wv1, wv2)]), c1w_result.2) := by
  obtain ⟨gh, s', hw⟩ := write_graph_nil_oracle [wv1, wv2] [(wv1, wv2)] Store.empty
  have h0 : c1w_result = (.ok gh, ⟨s', []⟩) := hw
  rw [(write_graph_ok_spec _ _ _ _ _ hw).1] at h0
  rw [h0]

/-- C1 (amended): for every directed graph `G` in which every edge's
endpoints occur among `G`'s vertices, writing `G` with `write_graph` (in any
iteration order `vs`, `es` of its vertex and edge collections) and reading
the returned `GraphHash` back with `read_graph` yields a graph equal to `G`
as a set of vertices and a set of edges, regardless of the iteration order
at write time — under the spec's §3 assumption that SHA-256 does not
collide on the written objects (the iteration sequences being shorter than
`2^64`, as Rust vectors are). -/
theorem c1_write_read_round_trip (G : DirectedGraph) (vs : List VertexId)
    (es : List Edge) (w : WState) (gh : GraphHash) (w' : WState)
    (hvs : vs.toFinset = G.vertices) (hes : es.toFinset = G.edges)
    (hwf : ∀ e ∈ G.edges, e.1 ∈ G.vertices ∧ e.2 ∈ G.vertices)
    (hinjV : HashInjOnV vs) (hinjE : HashInjOnE es)
    (hlenV : vs.length < 18446744073709551616)
    (hlenE : es.length < 18446744073709551616)
    (hw : write_graph vs es w = (.ok gh, w')) :
    read_graph w'.store gh = .ok G := by
  have hwf' : ∀ e ∈ es, e.1 ∈ vs ∧ e.2 ∈ vs := by
    intro e he
    have heG : e ∈ G.edges := by
      rw [← hes]
      exact List.mem_toFinset.mpr he
    obtain ⟨h1, h2⟩ := hwf e heG
    exact ⟨List.mem_toFinset.mp (by rw [hvs]; exact h1),
           List.mem_toFinset.mp (by rw [hvs]; exact h2)⟩
  rw [read_after_write_graph vs es w gh w' hw hinjV hinjE hlenV hlenE hwf']
  rw [hvs, hes]

def c1cex_result : Except Error GraphHash × WState :=
  write_graph [] [(wv1, wv2)] ⟨Store.empty, []⟩

/-- C1 as frozen is false for graphs with dangling edges: writing the graph
with no vertices and the single edge `(1, 2)` succeeds, but reading the
returned root descriptor back fails with `ObjectNotFound` (the endpoint
vertex objects were never written), so no graph equal to the input is
returned. -/
theorem c1_claim_counterexample :
    c1cex_result.1 = .ok (graph_hash_of [] [(wv1, wv2)]) ∧
    read_graph c1cex_result.2.store (graph_hash_of [] [(wv1, wv2)]) =
      .error .objectNotFound := by
  obtain ⟨gh, s', hw⟩ := write_graph_nil_oracle [] [(wv1, wv2)] Store.empty
  obtain ⟨hgh, hvp, hep, hvv, hev, hgp⟩ := write_graph_ok_spec _ _ _ _ _ hw
  subst hgh
  have h0 : c1cex_result = (.ok (graph_hash_of [] [(wv1, wv2)]), ⟨s', []⟩) := hw
  refine ⟨by rw [h0], ?_⟩
  rw [h0]
  have hvstage := read_graph_vertices_of_parts s' [] _ _ DirectedGraph.new
    hvp hvv (by intro a ha; cases ha) (by decide)
  have hfind : findIn s'.edgePart (edge_to_file (wv1, wv2)).hash.bytes =
      some (edge_to_file (wv1, wv2)).content := by
    rw [hep]
    simp [findIn, store_entry_file]
  have hhe : read_hash_edge s' (edge_to_file (wv1, wv2)).hash =
      .ok { from_ := (vertex_to_file wv1).hash, to_ := (vertex_to_file wv2).hash } := by
    simp only [read_hash_edge, read_file_in_dir, Store.part, hfind]
    exact file_to_hash_edge_edge_to_file (wv1, wv2)
  have hv1 : read_vertex_object s' (vertex_to_file wv1).hash =
      .error .objectNotFound := by
    simp only [read_vertex_object, read_file_in_dir, Store.part]
    rw [show findIn s'.vertexPart (vertex_to_file wv1).hash.bytes = none by
      rw [hvp]
      simp [findIn, Store.empty]]
  have hedge : read_edge s' (edge_to_file (wv1, wv2)).hash =
      .error .objectNotFound := by
    simp only [read_edge, hhe, hv1]
  have hme : read_edge_hash_vec s'
      (hash_vec_to_file (edge_hashes [(wv1, wv2)])).hash =
      .ok (edge_hashes [(wv1, wv2)]) :=
    read_edge_hash_vec_of_part s' _ _ hev (edge_hashes_length32 _) (by decide)
  simp only [read_graph, graph_hash_of, hvstage]
  simp only [read_graph_edges, edge_hashes, List.map_cons, List.map_nil] at hme ⊢
  rw [hme]
  simp only [read_all_edges_from_files, hedge]

/-- Closed instance of the amended C1 round trip on the graph `G1`. -/
theorem c1_write_read_round_trip_witness :
    ([wv1, wv2].toFinset = G1.vertices) ∧
    ([(wv1, wv2)].toFinset = G1.edges) ∧
    (∀ e ∈ G1.edges, e.1 ∈ G1.vertices ∧ e.2 ∈ G1.vertices) ∧
    HashInjOnV [wv1, wv2] ∧ HashInjOnE [(wv1, wv2)] ∧
    read_graph c1w_result.2.store (graph_hash_of [wv1, wv2] [(wv1, wv2)]) = .ok G1 :=
  ⟨by decide, by decide, G1_wf, hash_inj_wv12, hash_inj_e12,
   c1_write_read_round_trip G1 [wv1, wv2] [(wv1, wv2)] ⟨Store.empty, []⟩ _ _
     (by decide) (by decide) G1_wf hash_inj_wv12 hash_inj_e12
     (by decide) (by decide) c1w_result_eq⟩

/-- C10: `write_graph` is deterministic — two successful runs on the same
vertex and edge iteration sequences return equal root descriptors (equal
`vertex_vec_hash` and equal `edge_vec_hash`), whatever the initial store
contents and whatever failure-free I/O behaviour each run sees. -/
theorem c10_write_graph_deterministic (vs : List VertexId) (es : List Edge)
    (w₁ w₂ : WState) (gh₁ gh₂ : GraphHash) (w₁' w₂' : WState)
    (h₁ : write_graph vs es w₁ = (.ok gh₁, w₁'))
    (h₂ : write_graph vs es w₂ = (.ok gh₂, w₂')) :
    gh₁ = gh₂ := by
  rw [(write_graph_ok_spec _ _ _ _ _ h₁).1, (write_graph_ok_spec _ _ _ _ _ h₂).1]

def c10_store2 : Store := ⟨[], [], [], [], [("other", [0])]⟩

def c10w_result1 : Except Error GraphHash × WState :=
  write_graph [wv1] [] ⟨Store.empty, []⟩

def c10w_result2 : Except Error GraphHash × WState :=
  write_graph [wv1] [] ⟨c10_store2, []⟩

theorem c10w_result1_eq :
    c10w_result1 = (.ok (graph_hash_of [wv1] []), c10w_result1.2) := by
  obtain ⟨gh, s', hw⟩ := write_graph_nil_oracle [wv1] [] Store.empty
  have h0 : c10w_result1 = (.ok gh, ⟨s', []⟩) := hw
  rw [(write_graph_ok_spec _ _ _ _ _ hw).1] at h0
  rw [h0]

theorem c10w_result2_eq :
    c10w_result2 = (.ok (graph_hash_of [wv1] []), c10w_result2.2) := by
  obtain ⟨gh, s', hw⟩ := write_graph_nil_oracle [wv1] [] c10_store2
  have h0 : c10w_result2 = (.ok gh, ⟨s', []⟩) := hw
  rw [(write_graph_ok_spec _ _ _ _ _ hw).1] at h0
  rw [h0]

/-- Closed instance of C10: the same iteration sequences written against two
different initial stores return the same root descriptor. -/
theorem c10_write_graph_deterministic_witness :
    write_graph [wv1] [] ⟨Store.empty, []⟩ =
      (.ok (graph_hash_of [wv1] []), c10w_result1.2) ∧
    write_graph [wv1] [] ⟨c10_store2, []⟩ =
      (.ok (graph_hash_of [wv1] []), c10w_result2.2) ∧
    graph_hash_of [wv1] [] = graph_hash_of [wv1] [] :=
  ⟨c10w_result1_eq, c10w_result2_eq,
   c10_write_graph_deterministic [wv1] [] _ _ _ _ _ _ c10w_result1_eq c10w_result2_eq⟩

/-- C2: for every store state and snapshot name, when no snapshot is
registered under that name (no `graph/<name>` entry exists), `load_graph`
fails with the `SnapshotNotFound` error. -/
theorem c2_load_unregistered_snapshot_not_found (s : Store) (name : String)
    (h : findName s.graphPart name = none) :
    load_graph s name = .error .snapshotNotFound := by
  simp only [load_graph, h]

/-- Closed instance of C2 on the empty store. -/
theorem c2_load_unregistered_witness :
    findName Store.empty.graphPart "g" = none ∧
    load_graph Store.empty "g" = .error .snapshotNotFound :=
  ⟨rfl, c2_load_unregistered_snapshot_not_found Store.empty "g" rfl⟩

/-- C4: the stored `HashEdge` of every edge `(from, to)` carries exactly the
content hashes obtained by re-encoding the endpoint `VertexId`s as
`vertex_to_file` does (decoding the edge object returns that `HashEdge`),
and the edge writer derives them purely: it never reads from nor writes to
the vertex partition of the store. -/
theorem c4_edge_stores_endpoint_hashes (e : Edge) (es : List Edge) (w : WState) :
    file_to_hash_edge (edge_to_file e) =
      .ok { from_ := (vertex_to_file e.1).hash, to_ := (vertex_to_file e.2).hash } ∧
    ((write_all_edges_to_files es w).2).store.vertexPart = w.store.vertexPart :=
  ⟨file_to_hash_edge_edge_to_file e, write_all_edges_vertexPart es w⟩

/-- C5: for every `VertexId` `v`, decoding the bytes produced by encoding
`v` yields exactly `v`: `file_to_vertex (vertex_to_file v) = Ok(v)`. -/
theorem c5_vertex_codec_round_trip (v : VertexId) :
    file_to_vertex (vertex_to_file v) = .ok v :=
  file_to_vertex_vertex_to_file v

def wv27 : VertexId := ⟨27, by decide⟩

/-- C6: hashing is a pure function of the input bytes — identical byte
strings yield identical `ContentHash` values and identical key strings —
and the vertex id 27, encoded then hashed, yields the fixed reproducible
lowercase-hex string of the source's `test_hash`. -/
theorem c6_hash_deterministic_golden :
    (∀ b₁ b₂ : Bytes, b₁ = b₂ →
      hashOf b₁ = hashOf b₂ ∧ (hashOf b₁).to_string = (hashOf b₂).to_string) ∧
    (vertex_to_file wv27).hash.to_string =
      "4d159113222bfeb85fbe717cc2393ee8a6a85b7ce5ac1791c4eade5e3dd6de41" := by
  constructor
  · intro b₁ b₂ h
    rw [h]
    exact ⟨rfl, rfl⟩
  · decide

/-- Closed instance of the determinism half of C6 on the bytes encoding 27. -/
theorem c6_hash_deterministic_witness :
    ([27, 0, 0, 0, 0, 0, 0, 0] : Bytes) = [27, 0, 0, 0, 0, 0, 0, 0] ∧
    hashOf [27, 0, 0, 0, 0, 0, 0, 0] = hashOf [27, 0, 0, 0, 0, 0, 0, 0] ∧
    (hashOf [27, 0, 0, 0, 0, 0, 0, 0]).to_string =
      (hashOf [27, 0, 0, 0, 0, 0, 0, 0]).to_string :=
  ⟨rfl, (c6_hash_deterministic_golden.1 _ _ rfl).1,
   (c6_hash_deterministic_golden.1 _ _ rfl).2⟩

/-- C9: `save_graph_as` writes the registry file `graph/<name>` only after
`write_graph` has completed successfully — if any step fails, the whole
registry partition (and hence the entry under every name) is exactly as
before the call. -/
theorem c9_registry_untouched_on_failure (name : String) (vs : List VertexId)
    (es : List Edge) (w : WState) (e : Error) (w' : WState)
    (hw : save_graph_as name vs es w = (.error e, w')) :
    w'.store.graphPart = w.store.graphPart ∧
    findName w'.store.graphPart name = findName w.store.graphPart name := by
  have hmain : w'.store.graphPart = w.store.graphPart := by
    simp only [save_graph_as] at hw
    have hgp := write_graph_graphPart vs es w
    rcases hg : write_graph vs es w with ⟨r, w₁⟩
    rw [hg] at hw hgp
    cases r with
    | error err =>
        simp only [Prod.mk.injEq] at hw
        obtain ⟨_, hw2⟩ := hw
        subst hw2
        exact hgp
    | ok gh =>
        dsimp only at hw
        by_cases hb : w₁.oracle.headD false
        · rw [if_pos hb] at hw
          simp only [Prod.mk.injEq] at hw
          obtain ⟨_, hw2⟩ := hw
          subst hw2
          exact hgp
        · rw [if_neg hb] at hw
          simp at hw
  exact ⟨hmain, by rw [hmain]⟩

/-- Closed instance of C9: with the very first object write failing, the
registry stays empty. -/
theorem c9_registry_untouched_witness :
    save_graph_as "g" [wv1] [] ⟨Store.empty, [true]⟩ =
      ((.error .ioFailure : Except Error String), (⟨Store.empty, []⟩ : WState)) ∧
    (⟨Store.empty, []⟩ : WState).store.graphPart =
      (⟨Store.empty, [true]⟩ : WState).store.graphPart :=
  ⟨by decide,
   (c9_registry_untouched_on_failure "g" [wv1] [] ⟨Store.empty, [true]⟩ .ioFailure
     ⟨Store.empty, []⟩ (by decide)).1⟩

/-! ### Success characterization of the reader (for C3 and C8) -/

/-- Every object the root descriptor `gh` references is present in the
store and decodes: the vertex manifest, every vertex object it lists, the
edge manifest, every edge object it lists, and both endpoint vertex objects
of every such edge. -/
def refs_ok (s : Store) (gh : GraphHash) : Prop :=
  (∃ hvs, read_vertex_hash_vec s gh.vertex_vec_hash = .ok hvs ∧
     ∀ h ∈ hvs, ∃ v, read_vertex_object s h = .ok v) ∧
  (∃ hes, read_edge_hash_vec s gh.edge_vec_hash = .ok hes ∧
     ∀ h ∈ hes, ∃ he, read_hash_edge s h = .ok he ∧
       (∃ a, read_vertex_object s he.from_ = .ok a) ∧
       (∃ b, read_vertex_object s he.to_ = .ok b))

theorem read_all_vertices_ok_mem (s : Store) (hv : List Hash) (vs : List VertexId)
    (h : read_all_vertices_from_files s hv = .ok vs) :
    ∀ k ∈ hv, ∃ v, read_vertex_object s k = .ok v := by
  induction hv generalizing vs with
  | nil =>
      intro k hk
      cases hk
  | cons a t ih =>
      intro k hk
      simp only [read_all_vertices_from_files] at h
      rcases hobj : read_vertex_object s a with e | v
      · rw [hobj] at h
        cases h
      · rw [hobj] at h
        rcases hrest : read_all_vertices_from_files s t with e2 | vs2
        · rw [hrest] at h
          cases h
        · rcases List.mem_cons.mp hk with rfl | hk'
          · exact ⟨v, hobj⟩
          · exact ih vs2 hrest k hk'

theorem read_all_vertices_ok_of_mem (s : Store) (hv : List Hash)
    (h : ∀ k ∈ hv, ∃ v, read_vertex_object s k = .ok v) :
    ∃ vs, read_all_vertices_from_files s hv = .ok vs := by
  induction hv with
  | nil => exact ⟨[], rfl⟩
  | cons a t ih =>
      obtain ⟨v, hv1⟩ := h a (by simp)
      obtain ⟨vs, hrest⟩ := ih (fun k hk => h k (by simp [hk]))
      exact ⟨v :: vs, by simp only [read_all_vertices_from_files, hv1, hrest]⟩

theorem read_edge_ok_mem (s : Store) (k : Hash) (e : Edge)
    (h : read_edge s k = .ok e) :
    ∃ he, read_hash_edge s k = .ok he ∧
      (∃ a, read_vertex_object s he.from_ = .ok a) ∧
      (∃ b, read_vertex_object s he.to_ = .ok b) := by
  simp only [read_edge] at h
  rcases hhe : read_hash_edge s k with e1 | he
  · rw [hhe] at h
    cases h
  · rw [hhe] at h
    dsimp only at h
    rcases ha : read_vertex_object s he.from_ with e2 | a
    · rw [ha] at h
      cases h
    · rw [ha] at h
      rcases hb : read_vertex_object s he.to_ with e3 | b
      · rw [hb] at h
        cases h
      · exact ⟨he, rfl, ⟨a, ha⟩, ⟨b, hb⟩⟩

theorem read_edge_ok_of (s : Store) (k : Hash) (he : HashEdge) (a b : VertexId)
    (h1 : read_hash_edge s k = .ok he)
    (h2 : read_vertex_object s he.from_ = .ok a)
    (h3 : read_vertex_object s he.to_ = .ok b) :
    read_edge s k = .ok (a, b) := by
  simp only [read_edge, h1, h2, h3]

theorem read_all_edges_ok_mem (s : Store) (hv : List Hash) (es : List Edge)
    (h : read_all_edges_from_files s hv = .ok es) :
    ∀ k ∈ hv, ∃ e, read_edge s k = .ok e := by
  induction hv generalizing es with
  | nil =>
      intro k hk
      cases hk
  | cons a t ih =>
      intro k hk
      simp only [read_all_edges_from_files] at h
      rcases hobj : read_edge s a with e1 | e
      · rw [hobj] at h
        cases h
      · rw [hobj] at h
        rcases hrest : read_all_edges_from_files s t with e2 | es2
        · rw [hrest] at h
          cases h
        · rcases List.mem_cons.mp hk with rfl | hk'
          · exact ⟨e, hobj⟩
          · exact ih es2 hrest k hk'

theorem read_all_edges_ok_of_mem (s : Store) (hv : List Hash)
    (h : ∀ k ∈ hv, ∃ e, read_edge s k = .ok e) :
    ∃ es, read_all_edges_from_files s hv = .ok es := by
  induction hv with
  | nil => exact ⟨[], rfl⟩
  | cons a t ih =>
      obtain ⟨e, he1⟩ := h a (by simp)
      obtain ⟨es, hrest⟩ := ih (fun k hk => h k (by simp [hk]))
      exact ⟨e :: es, by simp only [read_all_edges_from_files, he1, hrest]⟩

/-- `read_graph` returns a graph exactly when every object it references is
present in the store and decodes. -/
theorem read_graph_success_iff_refs_ok (s : Store) (gh : GraphHash) :
    (∃ g, read_graph s gh = .ok g) ↔ refs_ok s gh := by
  constructor
  · rintro ⟨g, hg⟩
    simp only [read_graph] at hg
    rcases hv : read_graph_vertices s gh.vertex_vec_hash DirectedGraph.new with e | g₁
    · rw [hv] at hg
      cases hg
    · rw [hv] at hg
      dsimp only at hg
      constructor
      · simp only [read_graph_vertices] at hv
        rcases hmv : read_vertex_hash_vec s gh.vertex_vec_hash with e | hvs
        · rw [hmv] at hv
          cases hv
        · rw [hmv] at hv
          dsimp only at hv
          rcases hall : read_all_vertices_from_files s hvs with e | vs
          · rw [hall] at hv
            cases hv
          · exact ⟨hvs, rfl, read_all_vertices_ok_mem s hvs vs hall⟩
      · simp only [read_graph_edges] at hg
        rcases hme : read_edge_hash_vec s gh.edge_vec_hash with e | hes
        · rw [hme] at hg
          cases hg
        · rw [hme] at hg
          dsimp only at hg
          rcases hall : read_all_edges_from_files s hes with e | es
          · rw [hall] at hg
            cases hg
          · refine ⟨hes, rfl, ?_⟩
            intro k hk
            obtain ⟨e, he⟩ := read_all_edges_ok_mem s hes es hall k hk
            exact read_edge_ok_mem s k e he
  · rintro ⟨⟨hvs, hmv, hobj⟩, ⟨hes, hme, hedge⟩⟩
    obtain ⟨vs, hall⟩ := read_all_vertices_ok_of_mem s hvs hobj
    have hedgeok : ∀ k ∈ hes, ∃ e, read_edge s k = .ok e := by
      intro k hk
      obtain ⟨he, h1, ⟨a, h2⟩, ⟨b, h3⟩⟩ := hedge k hk
      exact ⟨(a, b), read_edge_ok_of s k he a b h1 h2 h3⟩
    obtain ⟨es, halle⟩ := read_all_edges_ok_of_mem s hes hedgeok
    refine ⟨es.foldl DirectedGraph.add_edge
      (vs.foldl DirectedGraph.add_vertex DirectedGraph.new), ?_⟩
    simp only [read_graph, read_graph_vertices, hmv, hall, read_graph_edges, hme, halle]

/-- The error `e` is the error with which the read of one of the objects
referenced by `gh` actually failed: the vertex manifest, a vertex object
listed by it, the edge manifest, an edge object listed by it, or an
endpoint vertex object of such an edge. -/
def originating_error (s : Store) (gh : GraphHash) (e : Error) : Prop :=
  read_vertex_hash_vec s gh.vertex_vec_hash = .error e ∨
  (∃ hvs, read_vertex_hash_vec s gh.vertex_vec_hash = .ok hvs ∧
    ∃ k ∈ hvs, read_vertex_object s k = .error e) ∨
  read_edge_hash_vec s gh.edge_vec_hash = .error e ∨
  (∃ hes, read_edge_hash_vec s gh.edge_vec_hash = .ok hes ∧
    ∃ k ∈ hes, read_hash_edge s k = .error e ∨
      (∃ he, read_hash_edge s k = .ok he ∧
        (read_vertex_object s he.from_ = .error e ∨
         read_vertex_object s he.to_ = .error e)))

theorem read_all_vertices_error_mem (s : Store) (hv : List Hash) (e : Error)
    (h : read_all_vertices_from_files s hv = .error e) :
    ∃ k ∈ hv, read_vertex_object s k = .error e := by
  induction hv with
  | nil => cases h
  | cons a t ih =>
      simp only [read_all_vertices_from_files] at h
      rcases hobj : read_vertex_object s a with e1 | v
      · rw [hobj] at h
        dsimp only at h
        injection h with h
        subst h
        exact ⟨a, by simp, hobj⟩
      · rw [hobj] at h
        dsimp only at h
        rcases hrest : read_all_vertices_from_files s t with e2 | vs
        · rw [hrest] at h
          dsimp only at h
          injection h with h
          subst h
          obtain ⟨k, hk, hke⟩ := ih hrest
          exact ⟨k, by simp [hk], hke⟩
        · rw [hrest] at h
          cases h

theorem read_edge_error_cases (s : Store) (k : Hash) (e : Error)
    (h : read_edge s k = .error e) :
    read_hash_edge s k = .error e ∨
      (∃ he, read_hash_edge s k = .ok he ∧
        (read_vertex_object s he.from_ = .error e ∨
         read_vertex_object s he.to_ = .error e)) := by
  simp only [read_edge] at h
  rcases hhe : read_hash_edge s k with e1 | he
  · rw [hhe] at h
    dsimp only at h
    injection h with h
    subst h
    exact Or.inl rfl
  · rw [hhe] at h
    dsimp only at h
    rcases ha : read_vertex_object s he.from_ with e2 | a
    · rw [ha] at h
      dsimp only at h
      injection h with h
      subst h
      exact Or.inr ⟨he, rfl, Or.inl ha⟩
    · rw [ha] at h
      dsimp only at h
      rcases hb : read_vertex_object s he.to_ with e3 | b
      · rw [hb] at h
        dsimp only at h
        injection h with h
        subst h
        exact Or.inr ⟨he, rfl, Or.inr hb⟩
      · rw [hb] at h
        cases h

theorem read_all_edges_error_mem (s : Store) (hv : List Hash) (e : Error)
    (h : read_all_edges_from_files s hv = .error e) :
    ∃ k ∈ hv, read_edge s k = .error e := by
  induction hv with
  | nil => cases h
  | cons a t ih =>
      simp only [read_all_edges_from_files] at h
      rcases hobj : read_edge s a with e1 | ed
      · rw [hobj] at h
        dsimp only at h
        injection h with h
        subst h
        exact ⟨a, by simp, hobj⟩
      · rw [hobj] at h
        dsimp only at h
        rcases hrest : read_all_edges_from_files s t with e2 | es
        · rw [hrest] at h
          dsimp only at h
          injection h with h
          subst h
          obtain ⟨k, hk, hke⟩ := ih hrest
          exact ⟨k, by simp [hk], hke⟩
        · rw [hrest] at h
          cases h

/-- Whatever error `read_graph` returns is the error of one of the failing
referenced-object reads. -/
theorem read_graph_error_originates (s : Store) (gh : GraphHash) (e : Error)
    (h : read_graph s gh = .error e) : originating_error s gh e := by
  simp only [read_graph] at h
  rcases hv : read_graph_vertices s gh.vertex_vec_hash DirectedGraph.new with e1 | g₁
  · rw [hv] at h
    dsimp only at h
    injection h with h
    subst h
    simp only [read_graph_vertices] at hv
    rcases hmv : read_vertex_hash_vec s gh.vertex_vec_hash with e2 | hvs
    · rw [hmv] at hv
      dsimp only at hv
      injection hv with hv
      subst hv
      exact Or.inl hmv
    · rw [hmv] at hv
      dsimp only at hv
      rcases hall : read_all_vertices_from_files s hvs with e3 | vs
      · rw [hall] at hv
        dsimp only at hv
        injection hv with hv
        subst hv
        exact Or.inr (Or.inl ⟨hvs, hmv, read_all_vertices_error_mem s hvs _ hall⟩)
      · rw [hall] at hv
        cases hv
  · rw [hv] at h
    dsimp only at h
    simp only [read_graph_edges] at h
    rcases hme : read_edge_hash_vec s gh.edge_vec_hash with e2 | hes
    · rw [hme] at h
      dsimp only at h
      injection h with h
      subst h
      exact Or.inr (Or.inr (Or.inl hme))
    · rw [hme] at h
      dsimp only at h
      rcases hall : read_all_edges_from_files s hes with e3 | es
      · rw [hall] at h
        dsimp only at h
        injection h with h
        subst h
        obtain ⟨k, hk, hke⟩ := read_all_edges_error_mem s hes _ hall
        exact Or.inr (Or.inr (Or.inr ⟨hes, hme, k, hk,
          read_edge_error_cases s k _ hke⟩))
      · rw [hall] at h
        cases h

/-- C3: `read_graph` returns a graph exactly when every object it
references is present in the store and decodes — so a missing or
undecodable referenced object means no graph at all is returned — and the
error surfaced in that case is the originating one: the error with which
the read of a referenced object (manifest, vertex object, edge object, or
edge endpoint object) actually failed. -/
theorem c3_read_graph_originating_error (s : Store) (gh : GraphHash) :
    ((∃ g, read_graph s gh = .ok g) ↔ refs_ok s gh) ∧
    (∀ e, read_graph s gh = .error e → originating_error s gh e) ∧
    (¬refs_ok s gh → ∃ e, read_graph s gh = .error e ∧ originating_error s gh e) := by
  refine ⟨read_graph_success_iff_refs_ok s gh, read_graph_error_originates s gh, ?_⟩
  intro hnot
  rcases hread : read_graph s gh with e | g
  · exact ⟨e, rfl, read_graph_error_originates s gh e hread⟩
  · exact absurd ((read_graph_success_iff_refs_ok s gh).1 ⟨g, hread⟩) hnot

def gh0 : GraphHash := ⟨⟨[]⟩, ⟨[]⟩⟩

/-- Closed instance of C3: on the empty store the vertex manifest is
missing, no graph is returned, and the surfaced error is exactly that
missing object's `ObjectNotFound`. -/
theorem c3_read_graph_witness :
    ¬refs_ok Store.empty gh0 ∧
    read_graph Store.empty gh0 = .error .objectNotFound ∧
    originating_error Store.empty gh0 .objectNotFound := by
  have hnot : ¬refs_ok Store.empty gh0 := by
    rintro ⟨⟨hvs, hmv, _⟩, _⟩
    rw [show read_vertex_hash_vec Store.empty gh0.vertex_vec_hash =
        .error .objectNotFound from rfl] at hmv
    cases hmv
  refine ⟨hnot, rfl, ?_⟩
  exact (c3_read_graph_originating_error Store.empty gh0).2.1 .objectNotFound rfl

/-! ### Order sensitivity of manifests (C7) -/

theorem vertex_hashes_inj (vs₁ vs₂ : List VertexId)
    (hinj : ∀ a ∈ vs₁, ∀ b ∈ vs₂,
      (vertex_to_file a).hash = (vertex_to_file b).hash → a = b)
    (h : vertex_hashes vs₁ = vertex_hashes vs₂) : vs₁ = vs₂ := by
  induction vs₁ generalizing vs₂ with
  | nil =>
      cases vs₂ with
      | nil => rfl
      | cons b t => simp [vertex_hashes] at h
  | cons a t ih =>
      cases vs₂ with
      | nil => simp [vertex_hashes] at h
      | cons b t₂ =>
          simp only [vertex_hashes, List.map_cons, List.cons.injEq] at h
          have hab := hinj a (by simp) b (by simp) h.1
          subst hab
          rw [ih t₂ (fun x hx y hy => hinj x (by simp [hx]) y (by simp [hy])) h.2]

theorem encode_hash_vec_inj (l₁ l₂ : List Hash)
    (h₁ : ∀ a ∈ l₁, a.bytes.length = 32) (h₂ : ∀ a ∈ l₂, a.bytes.length = 32)
    (h : encode_hash_vec l₁ = encode_hash_vec l₂) : l₁ = l₂ := by
  have hf : (l₁.map Hash.bytes).flatten = (l₂.map Hash.bytes).flatten := by
    have hd := congrArg (List.drop 8) h
    rwa [encode_hash_vec, encode_hash_vec, List.drop_left' (encode_u64_length _),
      List.drop_left' (encode_u64_length _)] at hd
  calc l₁ = split32 ((l₁.map Hash.bytes).flatten) := (split32_flatten l₁ h₁).symm
    _ = split32 ((l₂.map Hash.bytes).flatten) := by rw [hf]
    _ = l₂ := split32_flatten l₂ h₂

/-- C7: the same vertex set written as two distinct sequences produces two
different vertex-manifest hashes (order affects the root), yet reading
either manifest back reconstructs the same set of vertices — under the
spec's §3 assumption that SHA-256 does not collide on the written objects
and manifests. -/
theorem c7_manifest_order_sensitivity (vs₁ vs₂ : List VertexId)
    (w₁ w₂ : WState) (h₁ h₂ : Hash) (w₁' w₂' : WState)
    (hperm : vs₁.Perm vs₂) (hne : vs₁ ≠ vs₂)
    (hinj : HashInjOnV (vs₁ ++ vs₂))
    (hmc : hashOf (encode_hash_vec (vertex_hashes vs₁)) =
             hashOf (encode_hash_vec (vertex_hashes vs₂)) →
           encode_hash_vec (vertex_hashes vs₁) = encode_hash_vec (vertex_hashes vs₂))
    (hlen : vs₁.length < 18446744073709551616)
    (hw₁ : write_graph_vertices vs₁ w₁ = (.ok h₁, w₁'))
    (hw₂ : write_graph_vertices vs₂ w₂ = (.ok h₂, w₂')) :
    h₁ ≠ h₂ ∧
    read_graph_vertices w₁'.store h₁ DirectedGraph.new = .ok ⟨vs₁.toFinset, ∅⟩ ∧
    read_graph_vertices w₂'.store h₂ DirectedGraph.new = .ok ⟨vs₂.toFinset, ∅⟩ ∧
    vs₁.toFinset = vs₂.toFinset := by
  obtain ⟨e₁, p₁, _, v₁, _, _⟩ := write_graph_vertices_ok_spec vs₁ w₁ h₁ w₁' hw₁
  obtain ⟨e₂, p₂, _, v₂, _, _⟩ := write_graph_vertices_ok_spec vs₂ w₂ h₂ w₂' hw₂
  subst e₁
  subst e₂
  have hinj₁ : HashInjOnV vs₁ := fun a ha b hb =>
    hinj a (by simp [ha]) b (by simp [hb])
  have hinj₂ : HashInjOnV vs₂ := fun a ha b hb =>
    hinj a (by simp [ha]) b (by simp [hb])
  have hlen₂ : vs₂.length < 18446744073709551616 := by
    rw [← hperm.length_eq]
    exact hlen
  refine ⟨?_, ?_, ?_, List.toFinset_eq_of_perm _ _ hperm⟩
  · intro hcontra
    have hcc : encode_hash_vec (vertex_hashes vs₁) =
        encode_hash_vec (vertex_hashes vs₂) := hmc hcontra
    have hveq := encode_hash_vec_inj _ _ (vertex_hashes_length32 vs₁)
      (vertex_hashes_length32 vs₂) hcc
    exact hne (vertex_hashes_inj vs₁ vs₂
      (fun a ha b hb => hinj a (by simp [ha]) b (by simp [hb])) hveq)
  · have := read_graph_vertices_of_parts w₁'.store vs₁ _ _ DirectedGraph.new
      p₁ v₁ hinj₁ hlen
    simpa [DirectedGraph.new] using this
  · have := read_graph_vertices_of_parts w₂'.store vs₂ _ _ DirectedGraph.new
      p₂ v₂ hinj₂ hlen₂
    simpa [DirectedGraph.new] using this

theorem hash_inj_wv1221 : HashInjOnV ([wv1, wv2] ++ [wv2, wv1]) := by
  intro a ha b hb hab
  simp only [List.cons_append, List.nil_append, List.mem_cons, List.not_mem_nil,
    or_false] at ha hb
  rcases ha with rfl | rfl | rfl | rfl <;> rcases hb with rfl | rfl | rfl | rfl <;>
    first
      | rfl
      | exact absurd hab hash_ne_wv12
      | exact absurd hab.symm hash_ne_wv12

theorem vh12_eq : vertex_hashes [wv1, wv2] =
    [⟨[124, 159, 161, 54, 212, 65, 63, 166, 23, 54, 55, 232, 131, 182, 153, 141,
       50, 225, 214, 117, 248, 140, 221, 255, 157, 203, 207, 51, 24, 32, 244, 184]⟩,
     ⟨[216, 110, 129, 18, 243, 196, 196, 68, 33, 38, 248, 233, 244, 79, 22, 134,
       125, 164, 135, 242, 144, 82, 191, 145, 184, 16, 69, 125, 179, 66, 9, 164]⟩] := by
  simp [vertex_hashes, wv1_file_eq, wv2_file_eq]

theorem vh21_eq : vertex_hashes [wv2, wv1] =
    [⟨[216, 110, 129, 18, 243, 196, 196, 68, 33, 38, 248, 233, 244, 79, 22, 134,
       125, 164, 135, 242, 144, 82, 191, 145, 184, 16, 69, 125, 179, 66, 9, 164]⟩,
     ⟨[124, 159, 161, 54, 212, 65, 63, 166, 23, 54, 55, 232, 131, 182, 153, 141,
       50, 225, 214, 117, 248, 140, 221, 255, 157, 203, 207, 51, 24, 32, 244, 184]⟩] := by
  simp [vertex_hashes, wv1_file_eq, wv2_file_eq]

theorem m1_hash : hashOf ([2, 0, 0, 0, 0, 0, 0, 0, 124, 159, 161, 54, 212, 65, 63,
    166, 23, 54, 55, 232, 131, 182, 153, 141, 50, 225, 214, 117, 248, 140, 221, 255,
    157, 203, 207, 51, 24, 32, 244, 184, 216, 110, 129, 18, 243, 196, 196, 68, 33,
    38, 248, 233, 244, 79, 22, 134, 125, 164, 135, 242, 144, 82, 191, 145, 184, 16,
    69, 125, 179, 66, 9, 164]) =
    ⟨[185, 37, 40, 111, 12, 126, 67, 111, 86, 250, 113, 29, 44, 34, 127, 206, 25,
      34, 91, 218, 123, 173, 50, 175, 175, 155, 99, 172, 61, 249, 193, 80]⟩ := by
  decide

theorem m2_hash : hashOf ([2, 0, 0, 0, 0, 0, 0, 0, 216, 110, 129, 18, 243, 196, 196,
    68, 33, 38, 248, 233, 244, 79, 22, 134, 125, 164, 135, 242, 144, 82, 191, 145,
    184, 16, 69, 125, 179, 66, 9, 164, 124, 159, 161, 54, 212, 65, 63, 166, 23, 54,
    55, 232, 131, 182, 153, 141, 50, 225, 214, 117, 248, 140, 221, 255, 157, 203,
    207, 51, 24, 32, 244, 184]) =
    ⟨[200, 36, 162, 2, 237, 9, 102, 218, 195, 128, 13, 106, 106, 161, 220, 175, 234,
      45, 125, 110, 97, 123, 219, 2, 34, 203, 15, 127, 53, 208, 252, 34]⟩ := by
  decide

theorem enc_vh12 : encode_hash_vec (vertex_hashes [wv1, wv2]) =
    [2, 0, 0, 0, 0, 0, 0, 0, 124, 159, 161, 54, 212, 65, 63, 166, 23, 54, 55, 232,
     131, 182, 153, 141, 50, 225, 214, 117, 248, 140, 221, 255, 157, 203, 207, 51,
     24, 32, 244, 184, 216, 110, 129, 18, 243, 196, 196, 68, 33, 38, 248, 233, 244,
     79, 22, 134, 125, 164, 135, 242, 144, 82, 191, 145, 184, 16, 69, 125, 179, 66,
     9, 164] := by
  rw [vh12_eq]
  rfl

theorem enc_vh21 : encode_hash_vec (vertex_hashes [wv2, wv1]) =
    [2, 0, 0, 0, 0, 0, 0, 0, 216, 110, 129, 18, 243, 196, 196, 68, 33, 38, 248, 233,
     244, 79, 22, 134, 125, 164, 135, 242, 144, 82, 191, 145, 184, 16, 69, 125, 179,
     66, 9, 164, 124, 159, 161, 54, 212, 65, 63, 166, 23, 54, 55, 232, 131, 182,
     153, 141, 50, 225, 214, 117, 248, 140, 221, 255, 157, 203, 207, 51, 24, 32,
     244, 184] := by
  rw [vh21_eq]
  rfl

theorem m12_hash_ne :
    hashOf (encode_hash_vec (vertex_hashes [wv1, wv2])) ≠
      hashOf (encode_hash_vec (vertex_hashes [wv2, wv1])) := by
  rw [enc_vh12, enc_vh21, m1_hash, m2_hash]
  decide

def c7w_result1 : Except Error Hash × WState :=
  write_graph_vertices [wv1, wv2] ⟨Store.empty, []⟩

def c7w_result2 : Except Error Hash × WState :=
  write_graph_vertices [wv2, wv1] ⟨Store.empty, []⟩

theorem c7w_result1_eq : c7w_result1 =
    (.ok (hash_vec_to_file (vertex_hashes [wv1, wv2])).hash, c7w_result1.2) := by
  obtain ⟨h, s', hw⟩ := write_graph_vertices_nil_oracle [wv1, wv2] Store.empty
  have h0 : c7w_result1 = (.ok h, ⟨s', []⟩) := hw
  rw [(write_graph_vertices_ok_spec _ _ _ _ hw).1] at h0
  rw [h0]

theorem c7w_result2_eq : c7w_result2 =
    (.ok (hash_vec_to_file (vertex_hashes [wv2, wv1])).hash, c7w_result2.2) := by
  obtain ⟨h, s', hw⟩ := write_graph_vertices_nil_oracle [wv2, wv1] Store.empty
  have h0 : c7w_result2 = (.ok h, ⟨s', []⟩) := hw
  rw [(write_graph_vertices_ok_spec _ _ _ _ hw).1] at h0
  rw [h0]

/-- Closed instance of C7 on the vertex set {1, 2} in its two orders. -/
theorem c7_manifest_order_sensitivity_witness :
    [wv1, wv2].Perm [wv2, wv1] ∧ [wv1, wv2] ≠ [wv2, wv1] ∧
    HashInjOnV ([wv1, wv2] ++ [wv2, wv1]) ∧
    (hash_vec_to_file (vertex_hashes [wv1, wv2])).hash ≠
      (hash_vec_to_file (vertex_hashes [wv2, wv1])).hash ∧
    read_graph_vertices c7w_result1.2.store
      (hash_vec_to_file (vertex_hashes [wv1, wv2])).hash DirectedGraph.new =
      .ok ⟨[wv1, wv2].toFinset, ∅⟩ ∧
    read_graph_vertices c7w_result2.2.store
      (hash_vec_to_file (vertex_hashes [wv2, wv1])).hash DirectedGraph.new =
      .ok ⟨[wv2, wv1].toFinset, ∅⟩ ∧
    [wv1, wv2].toFinset = [wv2, wv1].toFinset := by
  have hmain := c7_manifest_order_sensitivity [wv1, wv2] [wv2, wv1]
    ⟨Store.empty, []⟩ ⟨Store.empty, []⟩ _ _ _ _ (by decide) (by decide)
    hash_inj_wv1221 (fun h => absurd h m12_hash_ne) (by decide)
    c7w_result1_eq c7w_result2_eq
  exact ⟨by decide, by decide, hash_inj_wv1221, hmain.1, hmain.2.1, hmain.2.2.1,
    hmain.2.2.2⟩

theorem read_all_edges_mem_of (s : Store) (hv : List Hash) (es : List Edge)
    (k : Hash) (e : Edge) (h : read_all_edges_from_files s hv = .ok es)
    (hk : k ∈ hv) (he : read_edge s k = .ok e) : e ∈ es := by
  induction hv generalizing es with
  | nil => cases hk
  | cons a t ih =>
      simp only [read_all_edges_from_files] at h
      rcases hobj : read_edge s a with e1 | e2
      · rw [hobj] at h
        cases h
      · rw [hobj] at h
        rcases hrest : read_all_edges_from_files s t with e3 | es2
        · rw [hrest] at h
          cases h
        · rw [hrest] at h
          dsimp only at h
          cases h
          rcases List.mem_cons.mp hk with rfl | hk'
          · rw [hobj] at he
            cases he
            exact List.mem_cons_self _ _
          · exact List.mem_cons_of_mem _ (ih es2 hrest hk')

/-- C8: the reader never rejects dangling edges — on every store whose root
descriptor dereferences completely (manifests and objects present and
decodable), with some edge object whose endpoint hashes resolve to vertex
object files in the vertex partition while the decoded endpoint id is
absent from the ids listed by the vertex manifest, `read_graph` succeeds
and the returned graph contains that edge even though its endpoint id is
absent from the graph's own vertex collection. -/
theorem c8_dangling_edges_accepted (s : Store) (gh : GraphHash)
    (hvs : List Hash) (vids : List VertexId) (hes : List Hash) (es : List Edge)
    (k : Hash) (he : HashEdge) (a b : VertexId)
    (h1 : read_vertex_hash_vec s gh.vertex_vec_hash = .ok hvs)
    (h2 : read_all_vertices_from_files s hvs = .ok vids)
    (h3 : read_edge_hash_vec s gh.edge_vec_hash = .ok hes)
    (h4 : read_all_edges_from_files s hes = .ok es)
    (hk : k ∈ hes)
    (h5 : read_hash_edge s k = .ok he)
    (h6 : read_vertex_object s he.from_ = .ok a)
    (h7 : read_vertex_object s he.to_ = .ok b)
    (hdangling : a ∉ vids) :
    read_graph s gh = .ok ⟨vids.toFinset, es.toFinset⟩ ∧
    (a, b) ∈ es.toFinset ∧ a ∉ vids.toFinset := by
  have hedge : read_edge s k = .ok (a, b) := read_edge_ok_of s k he a b h5 h6 h7
  refine ⟨?_, ?_, ?_⟩
  · simp only [read_graph, read_graph_vertices, h1, h2, read_graph_edges, h3, h4]
    rw [foldl_add_vertex, foldl_add_edge]
    simp [DirectedGraph.new]
  · exact List.mem_toFinset.mpr (read_all_edges_mem_of s hes es k (a, b) h4 hk hedge)
  · intro hmem
    exact hdangling (List.mem_toFinset.mp hmem)

def c8_key1 : Bytes := List.replicate 32 1

def c8_key2 : Bytes := List.replicate 32 2

def c8_keye : Bytes := List.replicate 32 4

def c8_kv : Bytes := List.replicate 32 3

def c8_ke : Bytes := List.replicate 32 5

/-- A hand-crafted store: vertex object files for ids 1 and 2 exist in the
vertex partition, the vertex manifest lists no vertex at all, and the edge
manifest lists one `HashEdge` referencing those two vertex objects. -/
def c8_store : Store :=
  ⟨[(c8_key1, [1, 0, 0, 0, 0, 0, 0, 0]), (c8_key2, [2, 0, 0, 0, 0, 0, 0, 0])],
   [(c8_keye, c8_key1 ++ c8_key2)],
   [(c8_kv, encode_u64 0)],
   [(c8_ke, encode_u64 1 ++ c8_keye)],
   []⟩

def c8_gh : GraphHash := ⟨⟨c8_kv⟩, ⟨c8_ke⟩⟩

/-- Closed instance of C8 on the hand-crafted store. -/
theorem c8_dangling_edges_witness :
    read_vertex_hash_vec c8_store c8_gh.vertex_vec_hash = .ok [] ∧
    read_all_vertices_from_files c8_store [] = .ok [] ∧
    read_edge_hash_vec c8_store c8_gh.edge_vec_hash = .ok [⟨c8_keye⟩] ∧
    read_all_edges_from_files c8_store [⟨c8_keye⟩] = .ok [(wv1, wv2)] ∧
    read_hash_edge c8_store ⟨c8_keye⟩ = .ok ⟨⟨c8_key1⟩, ⟨c8_key2⟩⟩ ∧
    read_vertex_object c8_store ⟨c8_key1⟩ = .ok wv1 ∧
    read_vertex_object c8_store ⟨c8_key2⟩ = .ok wv2 ∧
    read_graph c8_store c8_gh =
      .ok ⟨([] : List VertexId).toFinset, [(wv1, wv2)].toFinset⟩ ∧
    (wv1, wv2) ∈ [(wv1, wv2)].toFinset ∧ wv1 ∉ ([] : List VertexId).toFinset := by
  have h1 : read_vertex_hash_vec c8_store c8_gh.vertex_vec_hash = .ok [] := by decide
  have h2 : read_all_vertices_from_files c8_store [] = .ok [] := by decide
  have h3 : read_edge_hash_vec c8_store c8_gh.edge_vec_hash = .ok [⟨c8_keye⟩] := by
    decide
  have h4 : read_all_edges_from_files c8_store [⟨c8_keye⟩] = .ok [(wv1, wv2)] := by
    decide
  have h5 : read_hash_edge c8_store ⟨c8_keye⟩ = .ok ⟨⟨c8_key1⟩, ⟨c8_key2⟩⟩ := by decide
  have h6 : read_vertex_object c8_store ⟨c8_key1⟩ = .ok wv1 := by decide
  have h7 : read_vertex_object c8_store ⟨c8_key2⟩ = .ok wv2 := by decide
  have hmain := c8_dangling_edges_accepted c8_store c8_gh [] [] [⟨c8_keye⟩]
    [(wv1, wv2)] ⟨c8_keye⟩ ⟨⟨c8_key1⟩, ⟨c8_key2⟩⟩ wv1 wv2 h1 h2 h3 h4
    (by decide) h5 h6 h7 (by decide)
  exact ⟨h1, h2, h3, h4, h5, h6, h7, hmain.1, hmain.2.1, hmain.2.2⟩

end HistoGraph
